import Mathlib

/-!
# HISE: scripting DSP glue and the HLAC conformance tool

A shallow embedding of

* `DspInstance::processBlock` and `DspFactory::Handler::getFactory`
  (`hi_scripting/scripting/api/DspFactory.cpp`),
* `main` of the HLAC test tool (`tools/hlac_tool/Source/Main.cpp`),
* the HLAC codec as the specification describes it (its sources are not at hand),
* `CallbackCollection::getBestCallback` (`hi_snex/snex_core/snex_CallbackCollection.cpp`),
* the init value of the span indexes (`hi_snex/snex_jit/snex_jit_ComplexTypeLibrary.h`),

followed by the properties proved about them.  Definitions come first, theorems after.
-/

set_option autoImplicit false

/-! ## Part I — definitions -/

/-! ### `DspInstance::processBlock` (DspFactory.cpp, lines 108-153) -/

namespace DspInstance

/-- The `VariantBuffer` a script hands over.  `size` is `VariantBuffer::size`, the number of
samples of the wrapped buffer (an `int` that is never negative); `id` stands for the
address of its sample data, `buffer.getWritePointer(0)`. -/
structure VariantBuffer where
  id : Nat
  size : Nat
deriving DecidableEq, Repr

/-- The part of `juce::var` that `processBlock` inspects. -/
inductive Var where
  | undefined
  | number (n : Int)
  | buffer (b : VariantBuffer)
  | array (a : List Var)
deriving Repr

/-- The test `var::isArray()`. -/
def Var.isArray : Var → Bool
  | .array _ => true
  | _ => false

/-- The accessor `var::getArray()`: the array, or `nullptr` when the value holds none. -/
def Var.getArray : Var → Option (List Var)
  | .array a => some a
  | _ => none

/-- The test `var::isBuffer()`. -/
def Var.isBuffer : Var → Bool
  | .buffer _ => true
  | _ => false

/-- The accessor `var::getBuffer()`: the buffer, or `nullptr` when the value holds none. -/
def Var.getBuffer : Var → Option VariantBuffer
  | .buffer b => some b
  | _ => none

/-- What reaches the loaded module: the arguments of
`object->processBlock(sampleData, numChannels, numSamples)`.  `sampleData` lists the
entries of the local `float* sampleData[4]` that were written before the call. -/
structure ModuleCall where
  sampleData : List VariantBuffer
  numChannels : Int
  numSamples : Int
deriving DecidableEq, Repr

/-- Modelled from the spec: `throwError` is declared in the class header, which is not among
the sources; the error kinds of the spec are raised to the caller, so it is the raising of
its message. -/
def throwErr {α : Type} (message : String) : Except String α :=
  .error message

/-- The body of the `for` loop of lines 121-135, run over the elements still to visit.
`numSamples` is the local of that name (`-1` until the first buffer is seen) and
`sampleData` the entries written so far. -/
def fillSampleData : List Var → Int → List VariantBuffer →
    Except String (Int × List VariantBuffer)
  | [], numSamples, sampleData => .ok (numSamples, sampleData)
  | v :: rest, numSamples, sampleData =>
    match v.getBuffer with
    | some b =>
      if numSamples ≠ -1 ∧ (b.size : Int) ≠ numSamples then
        throwErr "Buffer size mismatch"
      else
        fillSampleData rest (b.size : Int) (sampleData ++ [b])
    | none => throwErr "processBlock must be called on array of buffers"

/-- The method `DspInstance::processBlock(const var& data)`.  `objectLoaded` says whether
`object != nullptr`.  The result is the error raised, or the call made on the module
(`none` when no call is made). -/
def processBlock (objectLoaded : Bool) (data : Var) : Except String (Option ModuleCall) :=
  if objectLoaded then
    if data.isArray then
      match data.getArray with
      | none => throwErr "processBlock must be called on array of buffers"
      | some a =>
        match fillSampleData (a.take (min 4 a.length)) (-1) [] with
        | .error e => .error e
        | .ok (numSamples, sampleData) =>
          .ok (some { sampleData := sampleData, numChannels := (a.length : Int),
                      numSamples := numSamples })
    else if data.isBuffer then
      match data.getBuffer with
      | some b =>
        .ok (some { sampleData := [b], numChannels := 1, numSamples := (b.size : Int) })
      | none => .ok none
    else throwErr "Data Buffer is not valid"
  else .ok none

/-- The array of `var`s holding the given buffers, in order. -/
def bufferArray (bs : List VariantBuffer) : Var :=
  .array (bs.map Var.buffer)

/-- Two buffers of the list have different sizes. -/
def SizesDiffer (bs : List VariantBuffer) : Prop :=
  ∃ x ∈ bs, ∃ y ∈ bs, x.size ≠ y.size

instance (bs : List VariantBuffer) : Decidable (SizesDiffer bs) := by
  unfold SizesDiffer; infer_instance

end DspInstance

/-! ### `DspFactory::Handler::getFactory` (DspFactory.cpp, lines 383-442 and 592-625) -/

namespace DspFactory

/-- The dynamic library found at the standard path, as far as the constructor of
`DynamicDspFactory` looks at it: `matchPassword` is `getFunction("matchPassword")` (`none`
for `nullptr`) and `hasInitialise` says whether `getFunction("initialise")` is not
`nullptr`.  A file that fails to open is a library with neither function. -/
structure DynamicLibrary where
  matchPassword : Option (String → Bool)
  hasInitialise : Bool

/-- What the constructor of `DynamicDspFactory` reads from outside: `library name` is the
library file at the standard path for that factory name (`none` when `existsAsFile()` is
false), and `dynamicId name` is what `getId()` of the factory constructed with that name
returns (`getId` is declared in the header, which is not among the sources). -/
structure Platform where
  library : String → Option DynamicLibrary
  dynamicId : String → String

/-- A constructed `DynamicDspFactory`. -/
structure DynamicDspFactory where
  name : String
  id : String
  library : DynamicLibrary

/-- The method `DynamicDspFactory::initialise()` (lines 481-497), on an opened library. -/
def DynamicDspFactory.initialise (name : String) (library : DynamicLibrary) :
    Except String Unit :=
  if library.hasInitialise then .ok ()
  else .error ("initialise() not implemented in Dynamic Library " ++ name)

/-- The constructor `DynamicDspFactory::DynamicDspFactory(name, password)` (lines 383-442):
the factory, or the `String` it throws. -/
def DynamicDspFactory.new (p : Platform) (name password : String) :
    Except String DynamicDspFactory :=
  match p.library name with
  | none => .error ("Library " ++ name ++ " was not found")
  | some library =>
    let checked : Except String Unit :=
      match library.matchPassword with
      | some func =>
        if password.isEmpty then
          .error "This Library is locked. You need a password to open it"
        else if !(func password) then
          .error "Wrong password for locked DLL. Abort loading"
        else .ok ()
      | none => .ok ()
    match checked with
    | .error e => .error e
    | .ok () =>
      match DynamicDspFactory.initialise name library with
      | .error e => .error e
      | .ok () => .ok { name := name, id := p.dynamicId name, library := library }

/-- A `DspFactory` object held by the handler: a static factory with its id, or a dynamic
one. -/
inductive Factory where
  | staticFactory (id : String)
  | dynamicFactory (f : DynamicDspFactory)

/-- The virtual `getId()`. -/
def Factory.getId : Factory → String
  | .staticFactory id => id
  | .dynamicFactory f => f.id

/-- The class `juce::ScopedPointer`: the owned pointer, `none` for `nullptr`. -/
structure ScopedPointer (α : Type) where
  object : Option α

/-- The method `ScopedPointer::release()`: hands out the owned pointer and leaves the
`ScopedPointer` holding `nullptr`. -/
def ScopedPointer.release {α : Type} (p : ScopedPointer α) : Option α × ScopedPointer α :=
  (p.object, { object := none })

/-- The conversion of a `ScopedPointer` to the raw pointer it holds. -/
def ScopedPointer.get {α : Type} (p : ScopedPointer α) : Option α :=
  p.object

/-- The two arrays of `DspFactory::Handler`. -/
structure Handler where
  staticFactories : List Factory
  loadedPlugins : List Factory

/-- The call `ReferenceCountedArray::add` with a raw pointer. -/
def addFactory (arr : List Factory) : Option Factory → List Factory
  | some f => arr ++ [f]
  | none => arr

/-- The method `DspFactory::Handler::getFactory(name, password)` (lines 592-625): the
returned pointer (`none` for `nullptr`) and the handler afterwards, or the `String` thrown. -/
def Handler.getFactory (p : Platform) (h : Handler) (name password : String) :
    Except String (Option Factory × Handler) :=
  match h.staticFactories.find? (fun f => f.getId == name) with
  | some f => .ok (some f, h)
  | none =>
    match h.loadedPlugins.find? (fun f => f.getId == name) with
    | some f => .ok (some f, h)
    | none =>
      match DynamicDspFactory.new p name password with
      | .error errorMessage => .error errorMessage
      | .ok lib =>
        let newLib : ScopedPointer Factory := { object := some (.dynamicFactory lib) }
        let released := newLib.release
        let h1 : Handler := { h with loadedPlugins := addFactory h.loadedPlugins released.1 }
        .ok (released.2.get, h1)

end DspFactory

/-! ### `main` of the HLAC test tool (Main.cpp, lines 31-303) -/

namespace HlacTool

/-- A `juce::File` as `main` uses it: `getFileName()` is the last path component. -/
structure File where
  fullPath : String
  fileName : String
deriving DecidableEq, Repr

/-- A line of `n` copies of the character `c`, as in the separator lines `main` logs. -/
def rule (c : Char) (n : Nat) : String :=
  String.mk (List.replicate n c)

/-- The method `juce::String::startsWith`. -/
def startsWith (s other : String) : Bool :=
  other.toList.isPrefixOf s.toList

/-- An `AudioSampleBuffer`: `size` samples in each channel.  A sample is represented by its
quantised integer value at the stream's bit depth; floating point is not modelled. -/
structure AudioSampleBuffer where
  size : Nat
  channels : List (List Int)
deriving DecidableEq, Repr

/-- The accessor `getNumChannels()`. -/
def AudioSampleBuffer.getNumChannels (b : AudioSampleBuffer) : Nat := b.channels.length

/-- The accessor `getNumSamples()`. -/
def AudioSampleBuffer.getNumSamples (b : AudioSampleBuffer) : Nat := b.size

/-- The struct `HlacEncoder::CompressorOptions`.  Its declaration is not among the sources:
the fields are those of the data model of the specification, under the names `main` assigns
to.  A `float` is represented by the rational it denotes. -/
structure CompressorOptions where
  fixedBlockWidth : Int
  removeDcOffset : Bool
  useDeltaEncoding : Bool
  useDiffEncodingWithFixedBlocks : Bool
  reuseFirstCycleLengthForBlock : Bool
  deltaCycleThreshhold : Rat
  bitRateForWholeBlock : Int
deriving DecidableEq, Repr

/-- The value of the `float` literal `0.1f` (the single nearest to one tenth). -/
def float_0_1 : Rat := 13421773 / 134217728

/-- The three passes of the tool over one file. -/
inductive Mode where
  | block
  | delta
  | diff
deriving DecidableEq, Repr

/-- The options of the block pass (lines 162-167), assigned over a default-constructed
`CompressorOptions`. -/
def wholeBlock (defaults : CompressorOptions) : CompressorOptions :=
  { defaults with
    fixedBlockWidth := 512
    removeDcOffset := false
    useDeltaEncoding := false
    useDiffEncodingWithFixedBlocks := false }

/-- The options of the delta pass (lines 200-207). -/
def delta (defaults : CompressorOptions) : CompressorOptions :=
  { defaults with
    fixedBlockWidth := -1
    removeDcOffset := false
    useDeltaEncoding := true
    useDiffEncodingWithFixedBlocks := false
    reuseFirstCycleLengthForBlock := true
    deltaCycleThreshhold := float_0_1 }

/-- The options of the diff pass (lines 243-249). -/
def diff (defaults : CompressorOptions) : CompressorOptions :=
  { defaults with
    fixedBlockWidth := 1024
    removeDcOffset := false
    useDeltaEncoding := false
    bitRateForWholeBlock := 4
    useDiffEncodingWithFixedBlocks := true }

/-- The options `main` passes to `setOptions` in each pass. -/
def optionsOf (defaults : CompressorOptions) : Mode → CompressorOptions
  | .block => wholeBlock defaults
  | .delta => delta defaults
  | .diff => diff defaults

/-- What `main` does that is visible from outside, in program order: the messages it logs
and its calls into its collaborators. -/
inductive Event where
  /-- The call `Logger::setCurrentLogger(l)` (`true`) or `Logger::setCurrentLogger(nullptr)`
  (`false`). -/
  | setCurrentLogger (installed : Bool)
  | writeToLog (message : String)
  /-- The call `root.findChildFiles(testSamples, File::findFiles, true)`. -/
  | findChildFiles (root : String) (recursive : Bool)
  | loadFile (f : File)
  | getFLACRatio (f : File)
  | createWriterFor (m : Mode) (f : File)
  | setOptions (m : Mode) (f : File) (o : CompressorOptions)
  | writeFromAudioSampleBuffer (m : Mode) (f : File)
  | read (m : Mode) (f : File)
  /-- The call `CompressionHelpers::checkBuffersEqual`, with what it found. -/
  | checkBuffersEqual (m : Mode) (f : File) (equal : Bool)
deriving DecidableEq, Repr

/-- The arithmetic of `double` that `main` uses, kept abstract: `divFloat x n` is
`x /= (float)n`, `divDouble x n` is `x /= (double)n`, and `str x d` is
`juce::String(x, d)`. -/
structure DoubleOps (D : Type) where
  zero : D
  add : D → D → D
  divFloat : D → Nat → D
  divDouble : D → Nat → D
  str : D → Nat → String

/-- The collaborators of `main`, none of which is among the sources: the file system, the
helpers of `CompressionHelpers`, and the HLAC format with its writer and reader.

* `findChildFiles root` : the files found recursively under `root` (none when `root` is no
  folder);
* `loadFile f` : the buffer and the speed written to `s`, or the `String` thrown;
* `getFLACRatio f` : the ratio returned and the speed written to `s`;
* `createWriterFor m f` : whether the `dynamic_cast` of the writer created in pass `m` for
  `f` is not `nullptr`;
* `defaults` : a default-constructed `CompressorOptions`;
* `read stream numChannels numSamples` : the buffer `b2` after the reader created for
  `stream` has read `numSamples` samples from sample 0 into it (the reader for a stream the
  writer has just produced is taken to exist: `main` dereferences it unchecked). -/
structure Env (D : Type) where
  ops : DoubleOps D
  findChildFiles : String → List File
  loadFile : File → Except String (AudioSampleBuffer × D)
  getFLACRatio : File → D × D
  createWriterFor : Mode → File → Bool
  defaults : CompressorOptions
  writeFromAudioSampleBuffer : CompressorOptions → AudioSampleBuffer → List Nat
  getCompressionRatioForLastFile : Mode → File → D
  getPaddedSampleSize : Nat → Nat
  read : List Nat → Nat → Nat → AudioSampleBuffer
  getDecompressionPerformanceForLastFile : Mode → File → D
  checkBuffersEqual : AudioSampleBuffer → AudioSampleBuffer → Bool

/-- The locals of `main` that outlive one loop iteration, with the events so far. -/
structure State (D : Type) where
  events : List Event
  blockRatio : D
  deltaRatio : D
  diffRatio : D
  flacRatio : D
  blockSpeed : D
  flacSpeed : D
  pcmSpeed : D
  deltaSpeed : D
  diffSpeed : D
  numFilesChecked : Nat

/-- Appends events to the trace. -/
def State.emit {D : Type} (s : State D) (es : List Event) : State D :=
  { s with events := s.events ++ es }

/-- How a piece of `main` ends: it falls through to the next statement, or `main` returns. -/
inductive Flow (D : Type) where
  | next (s : State D)
  | exit (code : Int) (s : State D)

/-- Sequencing: the continuation runs only when the first part fell through. -/
def Flow.andThen {D : Type} (x : Flow D) (k : State D → Flow D) : Flow D :=
  match x with
  | .next s => k s
  | .exit code s => .exit code s

/-- The constant `useBlock`. -/
def useBlock : Bool := true
/-- The constant `useDelta`. -/
def useDelta : Bool := true
/-- The constant `useDiff`. -/
def useDiff : Bool := true
/-- The constant `checkWithFlac`. -/
def checkWithFlac : Bool := true

/-- The part of a pass from `setOptions` to the read back and the equality check, which is
the same in the three passes (lines 169-181, 209-225, 251-269): the events, in order. -/
def roundTripEvents {D : Type} (env : Env D) (m : Mode) (f : File)
    (b : AudioSampleBuffer) : List Event :=
  let stream := env.writeFromAudioSampleBuffer (optionsOf env.defaults m) b
  let b2 := env.read stream b.getNumChannels (env.getPaddedSampleSize b.getNumSamples)
  [.setOptions m f (optionsOf env.defaults m), .writeFromAudioSampleBuffer m f,
   .read m f, .checkBuffersEqual m f (env.checkBuffersEqual b2 b)]

/-- The block pass (lines 153-189). -/
def blockPass {D : Type} (env : Env D) (f : File) (b : AudioSampleBuffer) (s : State D) :
    Flow D :=
  if useBlock then
    let s := s.emit [.createWriterFor .block f]
    if env.createWriterFor .block f = false then .exit 1 s
    else
      let r := env.getCompressionRatioForLastFile .block f
      let s := s.emit (roundTripEvents env .block f b)
      let speed := env.getDecompressionPerformanceForLastFile .block f
      let s := { s with blockSpeed := env.ops.add s.blockSpeed speed }
      let s := s.emit [.writeToLog ("Compressing with blocks: " ++ env.ops.str r 3)]
      .next { s with blockRatio := env.ops.add s.blockRatio r }
  else .next s

/-- The delta pass (lines 191-232). -/
def deltaPass {D : Type} (env : Env D) (f : File) (b : AudioSampleBuffer) (s : State D) :
    Flow D :=
  if useDelta then
    let s := s.emit [.createWriterFor .delta f]
    if env.createWriterFor .delta f = false then .exit 1 s
    else
      let r := env.getCompressionRatioForLastFile .delta f
      let s := s.emit (roundTripEvents env .delta f b)
      let speed := env.getDecompressionPerformanceForLastFile .delta f
      let s := { s with deltaSpeed := env.ops.add s.deltaSpeed speed }
      let s := s.emit [.writeToLog ("Compressing with delta:  " ++ env.ops.str r 3)]
      .next { s with deltaRatio := env.ops.add s.deltaRatio r }
  else .next s

/-- The diff pass (lines 234-274). -/
def diffPass {D : Type} (env : Env D) (f : File) (b : AudioSampleBuffer) (s : State D) :
    Flow D :=
  if useDiff then
    let s := s.emit [.createWriterFor .diff f]
    if env.createWriterFor .diff f = false then .exit 1 s
    else
      let r := env.getCompressionRatioForLastFile .diff f
      let s := { s with diffRatio := env.ops.add s.diffRatio r }
      let s := s.emit (roundTripEvents env .diff f b)
      let speed := env.getDecompressionPerformanceForLastFile .diff f
      let s := { s with diffSpeed := env.ops.add s.diffSpeed speed }
      .next (s.emit [.writeToLog ("Compressing with diff: " ++ env.ops.str r 3)])
  else .next s

/-- The FLAC comparison (lines 132-141). -/
def flacPass {D : Type} (env : Env D) (f : File) (s : State D) : State D :=
  if checkWithFlac then
    let s := s.emit [.getFLACRatio f]
    let fr := (env.getFLACRatio f).1
    let s := { s with flacSpeed := env.ops.add s.flacSpeed (env.getFLACRatio f).2 }
    let s := { s with flacRatio := env.ops.add s.flacRatio fr }
    s.emit [.writeToLog ("Compressing with FLAC:  " ++ env.ops.str fr 3)]
  else s

/-- One iteration of the loop over `testSamples` (lines 82-275). -/
def loopBody {D : Type} (env : Env D) (s : State D) (f : File) : Flow D :=
  if startsWith f.fileName "_" then .next s
  else
    let s := { s with numFilesChecked := s.numFilesChecked + 1 }
    let s := s.emit [.writeToLog "", .writeToLog ("Compressing file " ++ f.fileName),
      .writeToLog (rule '-' 68),
      .loadFile f]
    match env.loadFile f with
    | .error error => .exit 1 (s.emit [.writeToLog error, .setCurrentLogger false])
    | .ok (b, speed) =>
      let s := { s with pcmSpeed := env.ops.add s.pcmSpeed speed }
      let s := flacPass env f s
      ((blockPass env f b s).andThen (deltaPass env f b)).andThen (diffPass env f b)

/-- The loop over `testSamples`. -/
def loop {D : Type} (env : Env D) (s : State D) : List File → Flow D
  | [] => .next s
  | f :: rest => (loopBody env s f).andThen (fun s1 => loop env s1 rest)

/-- The summary (lines 277-300): the averages, then the lines logged. -/
def summary {D : Type} (env : Env D) (s : State D) : State D :=
  let n := s.numFilesChecked
  let s := { s with
    flacRatio := env.ops.divFloat s.flacRatio n
    deltaRatio := env.ops.divFloat s.deltaRatio n
    diffRatio := env.ops.divFloat s.diffRatio n
    blockRatio := env.ops.divFloat s.blockRatio n
    blockSpeed := env.ops.divDouble s.blockSpeed n
    pcmSpeed := env.ops.divDouble s.pcmSpeed n
    flacSpeed := env.ops.divDouble s.flacSpeed n
    deltaSpeed := env.ops.divDouble s.deltaSpeed n
    diffSpeed := env.ops.divDouble s.diffSpeed n }
  s.emit
    ([.writeToLog (rule '=' 53)]
      ++ (if checkWithFlac then [.writeToLog ("FLAC ratio:\t" ++ env.ops.str s.flacRatio 3)]
          else [])
      ++ (if useBlock then [.writeToLog ("Block ratio:\t" ++ env.ops.str s.blockRatio 3)]
          else [])
      ++ (if useDelta then [.writeToLog ("Delta ratio:\t" ++ env.ops.str s.deltaRatio 3)]
          else [])
      ++ (if useDiff then [.writeToLog ("Diff ratio:\t" ++ env.ops.str s.diffRatio 3)]
          else [])
      ++ [.writeToLog (rule '=' 53),
          .writeToLog ("PCM speed:\t" ++ env.ops.str s.pcmSpeed 1)]
      ++ (if checkWithFlac then [.writeToLog ("FLAC speed:\t" ++ env.ops.str s.flacSpeed 1)]
          else [])
      ++ (if useBlock then [.writeToLog ("Block speed:\t" ++ env.ops.str s.blockSpeed 1)]
          else [])
      ++ (if useDelta then [.writeToLog ("Delta speed:\t" ++ env.ops.str s.deltaSpeed 1)]
          else [])
      ++ (if useDiff then [.writeToLog ("Diff speed:\t" ++ env.ops.str s.diffSpeed 1)]
          else [])
      ++ [.setCurrentLogger false])

/-- The usage text (lines 41-44). -/
def usage : List Event :=
  [.writeToLog "HISE Lossless Audio Codec Test tool",
   .writeToLog (rule '-' 35),
   .writeToLog "Usage: hlac_tool [FOLDER_WITH_TEST_FILES]",
   .writeToLog "(put \x27_\x27 before filename to skip samples)"]

/-- The state on entry to the loop, after `Logger::setCurrentLogger(l)`. -/
def initialState {D : Type} (env : Env D) : State D :=
  { events := [.setCurrentLogger true]
    blockRatio := env.ops.zero, deltaRatio := env.ops.zero, diffRatio := env.ops.zero
    flacRatio := env.ops.zero, blockSpeed := env.ops.zero, flacSpeed := env.ops.zero
    pcmSpeed := env.ops.zero, deltaSpeed := env.ops.zero, diffSpeed := env.ops.zero
    numFilesChecked := 0 }

/-- What a run of `main` leaves behind. -/
structure Result (D : Type) where
  exitCode : Int
  state : State D

/-- The function `main(argc, argv)`.  The root folder is `argv[1]`. -/
def main {D : Type} (env : Env D) (argc : Int) (argv : List String) : Result D :=
  let s := initialState env
  if argc ≠ 2 then
    { exitCode := 1, state := s.emit (usage ++ [.setCurrentLogger false]) }
  else
    let root := argv.getD 1 ""
    let testSamples := env.findChildFiles root
    let s := s.emit [.findChildFiles root true]
    match loop env s testSamples with
    | .exit code s => { exitCode := code, state := s }
    | .next s => { exitCode := 0, state := summary env s }

/-- Whether an event is a call into a collaborator other than the logger. -/
def Event.isCall : Event → Bool
  | .setCurrentLogger _ => false
  | .writeToLog _ => false
  | _ => true

/-- The calls `main` makes into its collaborators other than the logger, in order. -/
def calls (events : List Event) : List Event :=
  events.filter Event.isCall

/-- The buffer `loadFile` yields for a file (an empty buffer when it throws). -/
def loadedBuffer {D : Type} (env : Env D) (f : File) : AudioSampleBuffer :=
  match env.loadFile f with
  | .ok (b, _) => b
  | .error _ => { size := 0, channels := [] }

/-- The calls of one complete pass over a file: the writer is created, the options are set,
the buffer is written, read back and compared. -/
def passCalls {D : Type} (env : Env D) (m : Mode) (f : File) : List Event :=
  .createWriterFor m f :: roundTripEvents env m f (loadedBuffer env f)

/-- The calls of a complete treatment of one file: it is loaded, compared with FLAC, then
put through the block, the delta and the diff pass, in that order. -/
def fileCalls {D : Type} (env : Env D) (f : File) : List Event :=
  [.loadFile f, .getFLACRatio f]
    ++ passCalls env .block f ++ passCalls env .delta f ++ passCalls env .diff f

/-- A file is skipped when its name starts with an underscore. -/
def skipped (f : File) : Bool := startsWith f.fileName "_"

/-- Loading the file succeeds and the writer is created in each of the three passes. -/
def Succeeds {D : Type} (env : Env D) (f : File) : Prop :=
  (∃ b speed, env.loadFile f = .ok (b, speed)) ∧ ∀ m, env.createWriterFor m f = true

/-- The three lines logged on entering the treatment of a file (lines 89-91). -/
def fileHeader (f : File) : List Event :=
  [.writeToLog "", .writeToLog ("Compressing file " ++ f.fileName),
   .writeToLog (rule '-' 68)]

/-- The text in front of the ratio a pass logs. -/
def passLabel : Mode → String
  | .block => "Compressing with blocks: "
  | .delta => "Compressing with delta:  "
  | .diff => "Compressing with diff: "

/-- The events of one complete pass over a file: its calls, then its ratio line. -/
def passEvents {D : Type} (env : Env D) (m : Mode) (f : File) : List Event :=
  passCalls env m f
    ++ [.writeToLog (passLabel m ++ env.ops.str (env.getCompressionRatioForLastFile m f) 3)]

/-- The events of a complete treatment of one file. -/
def fileEvents {D : Type} (env : Env D) (f : File) : List Event :=
  fileHeader f
    ++ [.loadFile f, .getFLACRatio f,
        .writeToLog ("Compressing with FLAC:  " ++ env.ops.str (env.getFLACRatio f).1 3)]
    ++ passEvents env .block f ++ passEvents env .delta f ++ passEvents env .diff f

/-- The files of the list that are not skipped, in order. -/
def checkedFiles (files : List File) : List File :=
  files.filter (fun f => !skipped f)

/-- The state in which a piece of `main` ends. -/
def Flow.state {D : Type} : Flow D → State D
  | .next s => s
  | .exit _ s => s

/-- The passes that come before a pass in the treatment of a file. -/
def modesBefore : Mode → List Mode
  | .block => []
  | .delta => [.block]
  | .diff => [.block, .delta]

/-- What every event of the treatment of file `f` satisfies: it is a log line, the removal
of the logger, or a call about `f` itself; options are set to those of the pass. -/
def Event.within {D : Type} (env : Env D) (f : File) : Event → Prop
  | .setCurrentLogger installed => installed = false
  | .writeToLog _ => True
  | .findChildFiles _ _ => False
  | .loadFile g => g = f
  | .getFLACRatio g => g = f
  | .createWriterFor _ g => g = f
  | .setOptions m g o => g = f ∧ o = optionsOf env.defaults m
  | .writeFromAudioSampleBuffer _ g => g = f
  | .read _ g => g = f
  | .checkBuffersEqual _ g _ => g = f

/-- The file an event is about, if any. -/
def Event.file? : Event → Option File
  | .setCurrentLogger _ => none
  | .writeToLog _ => none
  | .findChildFiles _ _ => none
  | .loadFile g => some g
  | .getFLACRatio g => some g
  | .createWriterFor _ g => some g
  | .setOptions _ g _ => some g
  | .writeFromAudioSampleBuffer _ g => some g
  | .read _ g => some g
  | .checkBuffersEqual _ g _ => some g

/-- An environment for examples: the files are those given, every file loads as an empty
one-channel buffer unless it is `failLoad`, and every writer is created unless the file is
`failWriter`.  Doubles are integers here. -/
def demoEnv (files : List File) (failLoad failWriter : Option File) : Env Int where
  ops := { zero := 0, add := fun x y => x + y, divFloat := fun x n => x / n,
           divDouble := fun x n => x / n, str := fun _ _ => "" }
  findChildFiles := fun _ => files
  loadFile := fun f =>
    if some f = failLoad then .error "Could not load file" else .ok (⟨0, [[]]⟩, 1)
  getFLACRatio := fun _ => (1, 1)
  createWriterFor := fun _ f => !(decide (some f = failWriter))
  defaults := ⟨-1, true, true, false, true, 1 / 5, 6⟩
  writeFromAudioSampleBuffer := fun _ _ => []
  getCompressionRatioForLastFile := fun _ _ => 1
  getPaddedSampleSize := fun n => n
  read := fun _ _ _ => ⟨0, [[]]⟩
  getDecompressionPerformanceForLastFile := fun _ _ => 1
  checkBuffersEqual := fun a b => decide (a = b)

/-- A file of the examples, in the folder `/samples`. -/
def demoFile (name : String) : File :=
  { fullPath := "/samples/" ++ name, fileName := name }

end HlacTool

/-! ### The HLAC codec, after the specification (sections 3, 4 and 6)

The writer and the reader of the format (`writeFromAudioSampleBuffer`, `read`) are not among
the sources.  This part follows the words of the specification; where they leave a choice
open (byte order, the order of the channels, the exact form of a sub-header), the doc
comment of the definition says which one is taken. -/

namespace Hlac

open HlacTool (AudioSampleBuffer CompressorOptions)

/-- Modelled from the spec: the error kinds of section 7. -/
inductive ErrorKind where
  | ConfigurationError
  | CorruptStream
  | SizeMismatch
  | UnsupportedMode
deriving DecidableEq, Repr

/-- Modelled from the spec: the number whose digits in base `base`, least significant first,
are the given values ("pack tightly (no padding)"). -/
def packLE (base : Nat) : List Nat → Nat
  | [] => 0
  | v :: vs => v + base * packLE base vs

/-- Modelled from the spec: the first `count` digits of a number in base `base`, least
significant first; the inverse of `packLE`. -/
def unpackLE (base : Nat) : Nat → Nat → List Nat
  | 0, _ => []
  | count + 1, n => n % base :: unpackLE base count (n / base)

/-- Modelled from the spec: a fixed-size unsigned field (`u8`, `u16`, `u32`, `u64`) of
`size` bytes.  The byte order is not fixed by the layout; least significant byte first is
taken. -/
def toBytes (size n : Nat) : List Nat := unpackLE 256 size n

/-- Modelled from the spec: the value of a fixed-size unsigned field. -/
def fromBytes (bytes : List Nat) : Nat := packLE 256 bytes

/-- A quantised sample or difference fits a signed field of `w` bits. -/
def Fits (w : Nat) (x : Int) : Prop :=
  -(2 : Int) ^ (w - 1) ≤ x ∧ x < (2 : Int) ^ (w - 1)

instance (w : Nat) (x : Int) : Decidable (Fits w x) := by
  unfold Fits; infer_instance

/-- Modelled from the spec: the `w`-bit field of a signed value (two's complement). -/
def toUnsigned (w : Nat) (x : Int) : Nat :=
  (x % (2 : Int) ^ w).toNat

/-- Modelled from the spec: the signed value of a `w`-bit field. -/
def toSigned (w : Nat) (u : Nat) : Int :=
  if u < 2 ^ (w - 1) then (u : Int) else (u : Int) - (2 : Int) ^ w

/-- Modelled from the spec: the bytes taken by `count` values of `w` bits packed tightly;
only the last byte may hold unused bits. -/
def payloadBytes (w count : Nat) : Nat :=
  (w * count + 7) / 8

/-- Modelled from the spec: the values packed at `w` bits each. -/
def packSamples (w : Nat) (xs : List Int) : List Nat :=
  toBytes (payloadBytes w xs.length) (packLE (2 ^ w) (xs.map (toUnsigned w)))

/-- Modelled from the spec: the inverse unpacking of `count` values of `w` bits. -/
def unpackSamples (w count : Nat) (bytes : List Nat) : List Int :=
  (unpackLE (2 ^ w) count (fromBytes bytes)).map (toSigned w)

/-- Modelled from the spec: the largest `bitWidth` of a block, "16-bit PCM plus one
overflow/escape bit". -/
def maxBitWidth : Nat := 17

/-- Modelled from the spec: "a bit width only as large as the maximum absolute difference
... requires": the least width from 1 to 17 that every value fits (17 if none does). -/
def widthFor (xs : List Int) : Nat :=
  match (List.range maxBitWidth).find? (fun i => xs.all (fun x => decide (Fits (i + 1) x))) with
  | some i => i + 1
  | none => maxBitWidth

/-- Modelled from the spec: the mode of a block, with its tag in the stream
(0 = FixedPCM, 1 = Delta, 2 = Diff). -/
inductive BlockMode where
  | FixedPCM
  | Delta
  | Diff
deriving DecidableEq, Repr

/-- Modelled from the spec: the mode tag written to the stream. -/
def BlockMode.tag : BlockMode → Nat
  | .FixedPCM => 0
  | .Delta => 1
  | .Diff => 2

/-- Modelled from the spec: the mode of a tag; an unknown tag is `UnsupportedMode`, it
"must not be silently treated as FixedPCM". -/
def BlockMode.ofTag (tag : Nat) : Except ErrorKind BlockMode :=
  if tag = 0 then .ok .FixedPCM
  else if tag = 1 then .ok .Delta
  else if tag = 2 then .ok .Diff
  else .error .UnsupportedMode

/-- Modelled from the spec: a `CompressedBlock` (section 3). -/
structure CompressedBlock where
  mode : BlockMode
  bitWidth : Nat
  sampleCount : Nat
  cycleLength : Nat
  payload : List Nat
deriving DecidableEq, Repr

/-- Modelled from the spec: fixed-width PCM mode.  Each sample, already quantised to the bit
depth of the stream, is packed at that many bits. -/
def encodeFixedPCM (bitDepth : Nat) (xs : List Int) : CompressedBlock :=
  { mode := .FixedPCM, bitWidth := bitDepth, sampleCount := xs.length, cycleLength := 0,
    payload := packSamples bitDepth xs }

/-- Modelled from the spec: the payload of the cycles after the first.  Each cycle stores
the per-sample signed difference against the corresponding sample of the previous cycle,
at the width its differences require; that width is the one-byte sub-header in front. -/
def encodeCycles (cycleLength : Nat) : Nat → List Int → List Int → List Nat
  | 0, _, _ => []
  | fuel + 1, prev, rest =>
    if rest = [] then []
    else
      let cur := rest.take cycleLength
      let d := List.zipWith (fun x y => x - y) cur prev
      widthFor d :: (packSamples (widthFor d) d
        ++ encodeCycles cycleLength fuel cur (rest.drop cycleLength))

/-- Modelled from the spec: the payload of a delta block: the first cycle as raw quantised
samples at the bit depth, then the later cycles as differences. -/
def deltaPayload (bitDepth cycleLength : Nat) (xs : List Int) : List Nat :=
  packSamples bitDepth (xs.take cycleLength)
    ++ encodeCycles cycleLength xs.length (xs.take cycleLength) (xs.drop cycleLength)

/-- Modelled from the spec: the greatest magnitude of the successive differences of a block
cut into cycles of the given length. -/
def maxDifference (cycleLength : Nat) : Nat → List Int → List Int → Nat
  | 0, _, _ => 0
  | fuel + 1, prev, rest =>
    if rest = [] then 0
    else
      let cur := rest.take cycleLength
      let d := List.zipWith (fun x y => x - y) cur prev
      max ((d.map Int.natAbs).foldl max 0)
        (maxDifference cycleLength fuel cur (rest.drop cycleLength))

/-- Modelled from the spec: cycle detection, "the smallest repeat period that minimizes
encoded size": among the lengths 1 to the number of samples, the least one whose delta
payload is shortest. -/
def detectCycleLength (bitDepth : Nat) (xs : List Int) : Nat :=
  (List.range xs.length).foldl
    (fun best i =>
      if (deltaPayload bitDepth (i + 1) xs).length < (deltaPayload bitDepth best xs).length
      then i + 1 else best)
    1

/-- Modelled from the spec: delta mode for one block with a given cycle length.  When the
magnitude of the successive differences exceeds `deltaCycleThreshhold`, as a fraction of
the dynamic range `2 ^ bitDepth`, the block falls back to raw storage (fixed-width PCM, the
fallback mode); the decision is local to the block. -/
def encodeDelta (bitDepth : Nat) (threshold : Rat) (cycleLength : Nat) (xs : List Int) :
    CompressedBlock :=
  if threshold * (2 : Rat) ^ bitDepth
      < (maxDifference cycleLength xs.length (xs.take cycleLength) (xs.drop cycleLength) : Nat)
  then encodeFixedPCM bitDepth xs
  else
    { mode := .Delta, bitWidth := bitDepth, sampleCount := xs.length,
      cycleLength := cycleLength, payload := deltaPayload bitDepth cycleLength xs }

/-- Modelled from the spec: diff mode for one block.  The coarse layer is the block
quantised to `bitRate` bits per sample (the top bits of each sample); the residual layer,
at the full bit depth, holds what each coarse value lacks of the original. -/
def encodeDiff (bitDepth bitRate : Nat) (xs : List Int) : CompressedBlock :=
  let coarse := xs.map (fun x => x / (2 : Int) ^ (bitDepth - bitRate))
  let residual := xs.map (fun x => x % (2 : Int) ^ (bitDepth - bitRate))
  { mode := .Diff, bitWidth := bitRate, sampleCount := xs.length, cycleLength := 0,
    payload := packSamples bitRate coarse ++ packSamples bitDepth residual }

/-- Modelled from the spec: the inverse of `encodeCycles`; `remaining` samples are still to
come.  A sub-header outside 1 to 17, a payload that ends early and bytes left over are
`CorruptStream`. -/
def decodeCycles (cycleLength : Nat) : Nat → List Int → Nat → List Nat →
    Except ErrorKind (List Int)
  | 0, _, remaining, bytes =>
    if remaining = 0 ∧ bytes = [] then .ok [] else .error .CorruptStream
  | fuel + 1, prev, remaining, bytes =>
    if remaining = 0 then
      if bytes = [] then .ok [] else .error .CorruptStream
    else
      match bytes with
      | [] => .error .CorruptStream
      | w :: body =>
        if w < 1 ∨ maxBitWidth < w then .error .CorruptStream
        else
          let count := min cycleLength remaining
          let size := payloadBytes w count
          if body.length < size then .error .CorruptStream
          else
            let d := unpackSamples w count (body.take size)
            let cur := List.zipWith (fun x y => x + y) d prev
            match decodeCycles cycleLength fuel cur (remaining - count) (body.drop size) with
            | .error e => .error e
            | .ok more => .ok (cur ++ more)

/-- Modelled from the spec: `decode(block)`, the inverse of the three modes.  It validates
the bounds of `bitWidth` and `sampleCount`, and rejects a payload whose length does not
match the size its header fields determine. -/
def decodeBlock (bitDepth : Nat) (blk : CompressedBlock) : Except ErrorKind (List Int) :=
  if blk.sampleCount = 0 ∨ blk.bitWidth < 1 ∨ maxBitWidth < blk.bitWidth then
    .error .CorruptStream
  else
    match blk.mode with
    | .FixedPCM =>
      if blk.payload.length = payloadBytes blk.bitWidth blk.sampleCount then
        .ok (unpackSamples blk.bitWidth blk.sampleCount blk.payload)
      else .error .CorruptStream
    | .Diff =>
      let coarseSize := payloadBytes blk.bitWidth blk.sampleCount
      let residualSize := payloadBytes bitDepth blk.sampleCount
      if blk.payload.length = coarseSize + residualSize ∧ blk.bitWidth ≤ bitDepth then
        let coarse := unpackSamples blk.bitWidth blk.sampleCount (blk.payload.take coarseSize)
        let residual := unpackSamples bitDepth blk.sampleCount (blk.payload.drop coarseSize)
        .ok (List.zipWith (fun c r => c * (2 : Int) ^ (bitDepth - blk.bitWidth) + r)
          coarse residual)
      else .error .CorruptStream
    | .Delta =>
      if blk.cycleLength = 0 then .error .CorruptStream
      else
        let count := min blk.cycleLength blk.sampleCount
        let size := payloadBytes blk.bitWidth count
        if blk.payload.length < size then .error .CorruptStream
        else
          let first := unpackSamples blk.bitWidth count (blk.payload.take size)
          match decodeCycles blk.cycleLength blk.sampleCount first (blk.sampleCount - count)
              (blk.payload.drop size) with
          | .error e => .error e
          | .ok more => .ok (first ++ more)

/-- Modelled from the spec: the state an encoder keeps across blocks (section 3): the cycle
length in use and the running totals behind the compression ratio. -/
structure EncoderState where
  cycleLength : Option Nat
  compressedBytes : Nat
  samples : Nat
deriving DecidableEq, Repr

/-- The macro `COMPRESSION_BLOCK_SIZE` of `Main.cpp`, line 12. -/
def COMPRESSION_BLOCK_SIZE : Nat := 4096

/-- Modelled from the spec: the width of an input window: `fixedBlockWidth` samples, or a
whole-block unit when it is -1 (adaptive); the unit is taken to be
`COMPRESSION_BLOCK_SIZE`. -/
def blockWidth (opts : CompressorOptions) : Nat :=
  if 0 < opts.fixedBlockWidth then opts.fixedBlockWidth.toNat else COMPRESSION_BLOCK_SIZE

/-- Modelled from the spec: the framed form of a block (section 6): mode tag `u8`, bit width
`u8`, sample count `u32`, cycle length `u32`, payload length `u32`, payload. -/
def frame (blk : CompressedBlock) : List Nat :=
  [blk.mode.tag, blk.bitWidth] ++ toBytes 4 blk.sampleCount ++ toBytes 4 blk.cycleLength
    ++ toBytes 4 blk.payload.length ++ blk.payload

/-- Modelled from the spec: the cycle length of a delta block: with
`reuseFirstCycleLengthForBlock` the length detected for the first block of the stream is
used again, otherwise it is detected for this block. -/
def chooseCycleLength (opts : CompressorOptions) (bitDepth : Nat) (st : EncoderState)
    (xs : List Int) : Nat :=
  match (if opts.reuseFirstCycleLengthForBlock then st.cycleLength else none) with
  | some cycleLength => cycleLength
  | none => detectCycleLength bitDepth xs

/-- Modelled from the spec: the block of one input window under the mode the options
select. -/
def encodeBlock (opts : CompressorOptions) (bitDepth : Nat) (st : EncoderState)
    (xs : List Int) : CompressedBlock :=
  if opts.useDeltaEncoding then
    encodeDelta bitDepth opts.deltaCycleThreshhold (chooseCycleLength opts bitDepth st xs) xs
  else if opts.useDiffEncodingWithFixedBlocks then
    encodeDiff bitDepth opts.bitRateForWholeBlock.toNat xs
  else encodeFixedPCM bitDepth xs

/-- Modelled from the spec: the transition `Encoding → Encoding`: one window is consumed,
one block is emitted, the state is updated. -/
def encodeWindow (opts : CompressorOptions) (bitDepth : Nat) (st : EncoderState)
    (xs : List Int) : EncoderState × CompressedBlock :=
  let blk := encodeBlock opts bitDepth st xs
  ({ cycleLength :=
       if opts.useDeltaEncoding then some (chooseCycleLength opts bitDepth st xs)
       else st.cycleLength
     compressedBytes := st.compressedBytes + (frame blk).length
     samples := st.samples + xs.length }, blk)

/-- Modelled from the spec: the encoding loop over the samples of one channel, window by
window; the last window may be shorter and is emitted with its true sample count. -/
def encodeSamples (opts : CompressorOptions) (bitDepth width : Nat) :
    Nat → EncoderState → List Int → EncoderState × List CompressedBlock
  | 0, st, _ => (st, [])
  | fuel + 1, st, xs =>
    if xs = [] then (st, [])
    else
      let r := encodeWindow opts bitDepth st (xs.take width)
      let rest := encodeSamples opts bitDepth width fuel r.1 (xs.drop width)
      (rest.1, r.2 :: rest.2)

/-- Modelled from the spec: the encoding of a buffer.  The order of the channels in the
stream is not fixed by the specification; the blocks of one channel after those of the
channel before is taken. -/
def encodeChannels (opts : CompressorOptions) (bitDepth width : Nat) :
    EncoderState → List (List Int) → EncoderState × List CompressedBlock
  | st, [] => (st, [])
  | st, c :: cs =>
    let r := encodeSamples opts bitDepth width c.length st c
    let rest := encodeChannels opts bitDepth width r.1 cs
    (rest.1, r.2 ++ rest.2)

/-- Modelled from the spec: the `StreamHeader` (sections 3 and 6) with the trailer fields.
A `float` field is kept as the 32 bits written; metadata strings are kept as bytes. -/
structure StreamHeader where
  sampleRate : Nat
  numChannels : Nat
  bitDepth : Nat
  dcOffsetFlag : Nat
  metadata : List (List Nat × List Nat)
  totalSamples : Nat
  compressionRatio : Nat
deriving DecidableEq, Repr

/-- Modelled from the spec: the 4 magic bytes; their value is not given, "HLAC" is taken. -/
def magic : List Nat := [72, 76, 65, 67]

/-- Modelled from the spec: the `u16` version; its value is not given, 1 is taken. -/
def version : Nat := 1

/-- Modelled from the spec: a length-prefixed string. -/
def stringBytes (str : List Nat) : List Nat :=
  toBytes 4 str.length ++ str

/-- Modelled from the spec: the metadata block, "length-prefixed key/value string pairs":
the number of pairs, then each key and value. -/
def metadataBytes (metadata : List (List Nat × List Nat)) : List Nat :=
  toBytes 4 metadata.length
    ++ metadata.flatMap (fun kv => stringBytes kv.1 ++ stringBytes kv.2)

/-- Modelled from the spec: the serialised header, in the order of section 6, with the
trailer fields already patched (the sink of the tool is a seekable memory stream). -/
def StreamHeader.bytes (h : StreamHeader) : List Nat :=
  magic ++ toBytes 2 version ++ toBytes 4 h.sampleRate ++ toBytes 2 h.numChannels
    ++ toBytes 2 h.bitDepth ++ toBytes 1 h.dcOffsetFlag ++ metadataBytes h.metadata
    ++ toBytes 8 h.totalSamples ++ toBytes 4 h.compressionRatio

/-- Modelled from the spec: what a write session is opened with: the format metadata of the
stream.  `f32` gives the 32 bits of a `float`; floating point is not modelled. -/
structure StreamFormat where
  f32 : Rat → Nat
  sampleRate : Rat
  numChannels : Nat
  bitDepth : Nat
  metadata : List (List Nat × List Nat)

/-- The format `main` opens its writers with:
`createWriterFor(stream, 44100, b.getNumChannels(), 16, emptyMetadata, 5)`. -/
def toolFormat (f32 : Rat → Nat) (b : AudioSampleBuffer) : StreamFormat :=
  { f32 := f32, sampleRate := 44100, numChannels := b.getNumChannels, bitDepth := 16,
    metadata := [] }

/-- Modelled from the spec: the state of an encoder when its session opens. -/
def EncoderState.initial : EncoderState :=
  { cycleLength := none, compressedBytes := 0, samples := 0 }

/-- Modelled from the spec: the final encoder state and the blocks of a write session over
a whole buffer. -/
def encodeBuffer (fmt : StreamFormat) (opts : CompressorOptions) (b : AudioSampleBuffer) :
    EncoderState × List CompressedBlock :=
  encodeChannels opts fmt.bitDepth (blockWidth opts) EncoderState.initial b.channels

/-- Modelled from the spec: the header of a finished write session: on close the trailer
holds the samples per channel and the ratio
`totalCompressedBytes / totalUncompressedBytes`. -/
def writtenHeader (fmt : StreamFormat) (opts : CompressorOptions) (b : AudioSampleBuffer) :
    StreamHeader :=
  let st := (encodeBuffer fmt opts b).1
  let uncompressedBytes := st.samples * ((fmt.bitDepth + 7) / 8)
  { sampleRate := fmt.f32 fmt.sampleRate % 2 ^ 32
    numChannels := fmt.numChannels
    bitDepth := fmt.bitDepth
    dcOffsetFlag := 0
    metadata := fmt.metadata
    totalSamples := b.size
    compressionRatio :=
      fmt.f32 ((st.compressedBytes : Rat) / (uncompressedBytes : Rat)) % 2 ^ 32 }

/-- Modelled from the spec: a write session over a whole buffer: the header, then the framed
blocks.

Refused with `ConfigurationError`: both modes selected, a bit depth outside 1 to 16, a diff
bit rate outside 1 to the bit depth.  Refused with `SizeMismatch`: a buffer whose channel or
sample counts are inconsistent.  Removal of the DC offset is outside this model: options
that ask for it are refused, and the flag is written as 0. -/
def writeFromAudioSampleBuffer (fmt : StreamFormat) (opts : CompressorOptions)
    (b : AudioSampleBuffer) : Except ErrorKind (List Nat) :=
  if opts.useDeltaEncoding ∧ opts.useDiffEncodingWithFixedBlocks then
    .error .ConfigurationError
  else if fmt.bitDepth < 1 ∨ 16 < fmt.bitDepth then .error .ConfigurationError
  else if opts.useDiffEncodingWithFixedBlocks ∧
      (opts.bitRateForWholeBlock < 1 ∨ (fmt.bitDepth : Int) < opts.bitRateForWholeBlock) then
    .error .ConfigurationError
  else if opts.removeDcOffset then .error .ConfigurationError
  else if b.channels.length ≠ fmt.numChannels ∨ ∃ c ∈ b.channels, c.length ≠ b.size then
    .error .SizeMismatch
  else
    .ok ((writtenHeader fmt opts b).bytes ++ (encodeBuffer fmt opts b).2.flatMap frame)

/-- Modelled from the spec: reads a field of `size` bytes; a stream that ends inside it is
`CorruptStream` (truncation). -/
def takeBytes (size : Nat) (bytes : List Nat) : Except ErrorKind (List Nat × List Nat) :=
  if bytes.length < size then .error .CorruptStream
  else .ok (bytes.take size, bytes.drop size)

/-- Modelled from the spec: reads an unsigned field of `size` bytes. -/
def readUInt (size : Nat) (bytes : List Nat) : Except ErrorKind (Nat × List Nat) :=
  match takeBytes size bytes with
  | .error e => .error e
  | .ok (field, rest) => .ok (fromBytes field, rest)

/-- Modelled from the spec: reads a length-prefixed string. -/
def readString (bytes : List Nat) : Except ErrorKind (List Nat × List Nat) :=
  match readUInt 4 bytes with
  | .error e => .error e
  | .ok (size, rest) => takeBytes size rest

/-- Modelled from the spec: reads `count` key/value pairs. -/
def readPairs : Nat → List Nat → Except ErrorKind (List (List Nat × List Nat) × List Nat)
  | 0, bytes => .ok ([], bytes)
  | count + 1, bytes =>
    match readString bytes with
    | .error e => .error e
    | .ok (key, rest) =>
      match readString rest with
      | .error e => .error e
      | .ok (value, rest1) =>
        match readPairs count rest1 with
        | .error e => .error e
        | .ok (pairs, rest2) => .ok ((key, value) :: pairs, rest2)

/-- Modelled from the spec: parses the header; an unknown magic or version is rejected with
`CorruptStream`. -/
def parseHeader (bytes : List Nat) : Except ErrorKind (StreamHeader × List Nat) :=
  match takeBytes 4 bytes with
  | .error e => .error e
  | .ok (m, r0) =>
    if m ≠ magic then .error .CorruptStream
    else
      match readUInt 2 r0 with
      | .error e => .error e
      | .ok (v, r1) =>
        if v ≠ version then .error .CorruptStream
        else
          match readUInt 4 r1 with
          | .error e => .error e
          | .ok (sampleRate, r2) =>
          match readUInt 2 r2 with
          | .error e => .error e
          | .ok (numChannels, r3) =>
          match readUInt 2 r3 with
          | .error e => .error e
          | .ok (bitDepth, r4) =>
          match readUInt 1 r4 with
          | .error e => .error e
          | .ok (dcOffsetFlag, r5) =>
          match readUInt 4 r5 with
          | .error e => .error e
          | .ok (pairCount, r6) =>
          match readPairs pairCount r6 with
          | .error e => .error e
          | .ok (metadata, r7) =>
          match readUInt 8 r7 with
          | .error e => .error e
          | .ok (totalSamples, r8) =>
          match readUInt 4 r8 with
          | .error e => .error e
          | .ok (compressionRatio, r9) =>
            .ok ({ sampleRate := sampleRate, numChannels := numChannels,
                   bitDepth := bitDepth, dcOffsetFlag := dcOffsetFlag, metadata := metadata,
                   totalSamples := totalSamples, compressionRatio := compressionRatio }, r9)

/-- Modelled from the spec: parses one framed block. -/
def parseBlock (bytes : List Nat) : Except ErrorKind (CompressedBlock × List Nat) :=
  match readUInt 1 bytes with
  | .error e => .error e
  | .ok (tag, r0) =>
    match BlockMode.ofTag tag with
    | .error e => .error e
    | .ok mode =>
      match readUInt 1 r0 with
      | .error e => .error e
      | .ok (bitWidth, r1) =>
      match readUInt 4 r1 with
      | .error e => .error e
      | .ok (sampleCount, r2) =>
      match readUInt 4 r2 with
      | .error e => .error e
      | .ok (cycleLength, r3) =>
      match readUInt 4 r3 with
      | .error e => .error e
      | .ok (payloadLength, r4) =>
      match takeBytes payloadLength r4 with
      | .error e => .error e
      | .ok (payload, r5) =>
        .ok ({ mode := mode, bitWidth := bitWidth, sampleCount := sampleCount,
               cycleLength := cycleLength, payload := payload }, r5)

/-- Modelled from the spec: parses the block sequence up to the end of the stream. -/
def parseBlocks : Nat → List Nat → Except ErrorKind (List CompressedBlock)
  | 0, bytes => if bytes = [] then .ok [] else .error .CorruptStream
  | fuel + 1, bytes =>
    if bytes = [] then .ok []
    else
      match parseBlock bytes with
      | .error e => .error e
      | .ok (blk, rest) =>
        match parseBlocks fuel rest with
        | .error e => .error e
        | .ok blks => .ok (blk :: blks)

/-- Modelled from the spec: the decoding loop: each block is decoded and its samples are
appended to the output. -/
def decodeBlocks (bitDepth : Nat) : List CompressedBlock → Except ErrorKind (List Int)
  | [] => .ok []
  | blk :: blks =>
    match decodeBlock bitDepth blk with
    | .error e => .error e
    | .ok xs =>
      match decodeBlocks bitDepth blks with
      | .error e => .error e
      | .ok more => .ok (xs ++ more)

/-- Modelled from the spec: the samples per channel of a stream: the trailer value when it
agrees with the blocks, otherwise the count found by scanning the blocks (the degraded
mode); a block sequence that does not divide among the channels is `CorruptStream`. -/
def samplesPerChannel (h : StreamHeader) (decoded : Nat) : Except ErrorKind Nat :=
  if decoded = h.numChannels * h.totalSamples then .ok h.totalSamples
  else if 0 < h.numChannels ∧ decoded % h.numChannels = 0 then .ok (decoded / h.numChannels)
  else .error .CorruptStream

/-- Modelled from the spec: `read(startSample, count)`: `count` samples of every channel
from `startSample` on, or fewer at the end of the stream, never more.  It is what decoding
the whole stream and slicing gives. -/
def read (stream : List Nat) (startSample count : Nat) : Except ErrorKind AudioSampleBuffer :=
  match parseHeader stream with
  | .error e => .error e
  | .ok (h, body) =>
    if h.dcOffsetFlag ≠ 0 ∨ h.bitDepth < 1 ∨ 16 < h.bitDepth then .error .CorruptStream
    else
      match parseBlocks body.length body with
      | .error e => .error e
      | .ok blks =>
        match decodeBlocks h.bitDepth blks with
        | .error e => .error e
        | .ok flat =>
          match samplesPerChannel h flat.length with
          | .error e => .error e
          | .ok n =>
            .ok { size := min count (n - startSample)
                  channels := (List.range h.numChannels).map (fun c =>
                    (((flat.drop (c * n)).take n).drop startSample).take count) }

/-- The fields of a block fit their places in the framed form. -/
def CompressedBlock.Framable (blk : CompressedBlock) : Prop :=
  blk.bitWidth < 256 ∧ blk.sampleCount < 2 ^ 32 ∧ blk.cycleLength < 2 ^ 32 ∧
    blk.payload.length < 2 ^ 32

/-- The cycle length an encoder state holds, if any, is a usable one. -/
def EncoderState.Valid (st : EncoderState) : Prop :=
  ∀ cycleLength, st.cycleLength = some cycleLength → 1 ≤ cycleLength ∧ cycleLength < 2 ^ 32

/-- The buffers the round trip is stated for: every channel has `size` samples, each
quantised to 16 bits, and the counts fit their header fields. -/
def Supported (b : AudioSampleBuffer) : Prop :=
  b.channels.length < 2 ^ 16 ∧ b.size < 2 ^ 64 ∧
    ∀ c ∈ b.channels, c.length = b.size ∧ ∀ x ∈ c, Fits 16 x

end Hlac

/-! ### The sums and the summary of `main` (Main.cpp, lines 130-141 and 277-298) -/

namespace HlacTool

/-- The speed `loadFile` writes to `s` for a file (zero when it throws). -/
def loadedSpeed {D : Type} (env : Env D) (f : File) : D :=
  match env.loadFile f with
  | .ok (_, speed) => speed
  | .error _ => env.ops.zero

/-- The sum `main` builds with `+=` over the files in order, starting from `0.0`. -/
def total {D : Type} (ops : DoubleOps D) (values : List D) : D :=
  values.foldl ops.add ops.zero

/-- The state after the complete treatment of one file. -/
def fileStep {D : Type} (env : Env D) (s : State D) (f : File) : State D :=
  { events := s.events ++ fileEvents env f
    blockRatio := env.ops.add s.blockRatio (env.getCompressionRatioForLastFile .block f)
    deltaRatio := env.ops.add s.deltaRatio (env.getCompressionRatioForLastFile .delta f)
    diffRatio := env.ops.add s.diffRatio (env.getCompressionRatioForLastFile .diff f)
    flacRatio := env.ops.add s.flacRatio (env.getFLACRatio f).1
    blockSpeed :=
      env.ops.add s.blockSpeed (env.getDecompressionPerformanceForLastFile .block f)
    flacSpeed := env.ops.add s.flacSpeed (env.getFLACRatio f).2
    pcmSpeed := env.ops.add s.pcmSpeed (loadedSpeed env f)
    deltaSpeed :=
      env.ops.add s.deltaSpeed (env.getDecompressionPerformanceForLastFile .delta f)
    diffSpeed :=
      env.ops.add s.diffSpeed (env.getDecompressionPerformanceForLastFile .diff f)
    numFilesChecked := s.numFilesChecked + 1 }

/-- The messages logged among the events, in order. -/
def logLines (events : List Event) : List String :=
  events.filterMap (fun e =>
    match e with
    | .writeToLog message => some message
    | _ => none)

/-- The averages a completed run over the given checked files ends with: each is the sum of
the values of the files divided by their number, the ratios through `(float)`, the speeds
through `(double)`. -/
def averages {D : Type} (env : Env D) (files : List File) : State D :=
  { events := []
    blockRatio := env.ops.divFloat
      (total env.ops (files.map (env.getCompressionRatioForLastFile .block))) files.length
    deltaRatio := env.ops.divFloat
      (total env.ops (files.map (env.getCompressionRatioForLastFile .delta))) files.length
    diffRatio := env.ops.divFloat
      (total env.ops (files.map (env.getCompressionRatioForLastFile .diff))) files.length
    flacRatio := env.ops.divFloat
      (total env.ops (files.map (fun f => (env.getFLACRatio f).1))) files.length
    blockSpeed := env.ops.divDouble
      (total env.ops (files.map (env.getDecompressionPerformanceForLastFile .block)))
      files.length
    flacSpeed := env.ops.divDouble
      (total env.ops (files.map (fun f => (env.getFLACRatio f).2))) files.length
    pcmSpeed := env.ops.divDouble
      (total env.ops (files.map (loadedSpeed env))) files.length
    deltaSpeed := env.ops.divDouble
      (total env.ops (files.map (env.getDecompressionPerformanceForLastFile .delta)))
      files.length
    diffSpeed := env.ops.divDouble
      (total env.ops (files.map (env.getDecompressionPerformanceForLastFile .diff)))
      files.length
    numFilesChecked := files.length }

/-- The lines of the summary for the given averages. -/
def summaryLines {D : Type} (ops : DoubleOps D) (a : State D) : List String :=
  [rule '=' 53,
   "FLAC ratio:\t" ++ ops.str a.flacRatio 3,
   "Block ratio:\t" ++ ops.str a.blockRatio 3,
   "Delta ratio:\t" ++ ops.str a.deltaRatio 3,
   "Diff ratio:\t" ++ ops.str a.diffRatio 3,
   rule '=' 53,
   "PCM speed:\t" ++ ops.str a.pcmSpeed 1,
   "FLAC speed:\t" ++ ops.str a.flacSpeed 1,
   "Block speed:\t" ++ ops.str a.blockSpeed 1,
   "Delta speed:\t" ++ ops.str a.deltaSpeed 1,
   "Diff speed:\t" ++ ops.str a.diffSpeed 1]

/-- The state a completed run over a folder ends in: the trace of the treatment of every
checked file followed by the summary lines, and the averages. -/
def finalState {D : Type} (env : Env D) (folder : String) : State D :=
  let files := checkedFiles (env.findChildFiles folder)
  { averages env files with
    events := [.setCurrentLogger true, .findChildFiles folder true]
      ++ files.flatMap (fileEvents env)
      ++ (summaryLines env.ops (averages env files)).map Event.writeToLog
      ++ [.setCurrentLogger false] }

/-- The event with what `checkBuffersEqual` found blanked out. -/
def Event.withoutCheckResult : Event → Event
  | .checkBuffersEqual m f _ => .checkBuffersEqual m f true
  | e => e

end HlacTool

/-! ### `CallbackCollection::getBestCallback` (snex_CallbackCollection.cpp, lines 40-138) -/

namespace CallbackCollection

/-- The enumeration `CallbackTypes`, declared in the header (not among the sources). -/
inductive CallbackTypes where
  | Channel
  | Frame
  | Sample
  | Inactive
deriving DecidableEq, Repr

/-- The process types, declared in the header (not among the sources): what
`getBestCallback` compares its argument with. -/
inductive ProcessType where
  | FrameProcessing
  | BlockProcessing
deriving DecidableEq, Repr

/-- A `FunctionData` as the collection uses it: `isValid` is its `operator bool`; a
default-constructed one (`{}`) is not valid. -/
structure FunctionData where
  isValid : Bool
deriving DecidableEq, Repr

/-- The members `callbacks` and `bestCallback` of a `CallbackCollection`. -/
structure Collection where
  channel : FunctionData
  frame : FunctionData
  sample : FunctionData
  bestFrameProcessing : CallbackTypes
  bestBlockProcessing : CallbackTypes
deriving DecidableEq, Repr

/-- The constructor `CallbackCollection::CallbackCollection()` (lines 40-44); the three
callbacks are default-constructed. -/
def Collection.new : Collection :=
  { channel := { isValid := false }, frame := { isValid := false },
    sample := { isValid := false }
    bestFrameProcessing := .Inactive, bestBlockProcessing := .Inactive }

/-- The element `callbacks[t]` (none is stored for `Inactive`). -/
def Collection.callback (c : Collection) : CallbackTypes → FunctionData
  | .Channel => c.channel
  | .Frame => c.frame
  | .Sample => c.sample
  | .Inactive => { isValid := false }

/-- The element `bestCallback[processType]`. -/
def Collection.bestCallback (c : Collection) : ProcessType → CallbackTypes
  | .FrameProcessing => c.bestFrameProcessing
  | .BlockProcessing => c.bestBlockProcessing

/-- The method `CallbackCollection::getBestCallback(processType)` (lines 114-138). -/
def getBestCallback (c : Collection) (processType : ProcessType) : CallbackTypes :=
  if processType = .FrameProcessing then
    if c.frame.isValid then .Frame
    else if c.sample.isValid then .Sample
    else if c.channel.isValid then .Channel
    else .Inactive
  else
    if c.channel.isValid then .Channel
    else if c.frame.isValid then .Frame
    else if c.sample.isValid then .Sample
    else .Inactive

/-- The method `CallbackCollection::getBestCallbackName(processType)` (lines 46-55). -/
def getBestCallbackName (c : Collection) (processType : ProcessType) : String :=
  let cb := c.bestCallback processType
  if cb = .Channel then "Channel"
  else if cb = .Frame then "Frame"
  else if cb = .Sample then "Sample"
  else "Inactive"

/-- What `setupCallbacks` finds in the compiled object for one callback id: the function
`obj[id]` and whether `matchesArgumentTypes` accepts its signature. -/
structure Lookup where
  function : FunctionData
  matchesArgumentTypes : Bool
deriving DecidableEq, Repr

/-- The assignment of one callback in `setupCallbacks`: the function found, replaced by `{}`
when its signature does not match. -/
def Lookup.accepted (l : Lookup) : FunctionData :=
  if !l.matchesArgumentTypes then { isValid := false } else l.function

/-- The part of `CallbackCollection::setupCallbacks()` that sets the three callbacks and the
two best callbacks (lines 78-94). -/
def setupCallbacks (c : Collection) (sample frame channel : Lookup) : Collection :=
  let c1 : Collection :=
    { c with sample := sample.accepted, frame := frame.accepted, channel := channel.accepted }
  { c1 with
    bestFrameProcessing := getBestCallback c1 .FrameProcessing
    bestBlockProcessing := getBestCallback c1 .BlockProcessing }

end CallbackCollection

/-! ### The span indexes (snex_jit_ComplexTypeLibrary.h, lines 75 and 125-136) -/

namespace SpanType

/-- The method `IndexBase::getInitValue(input)` (line 75), which `SpanType::Unsafe`
inherits. -/
def IndexBase.getInitValue (input : Int) : Int := input

/-- The method `SpanType::Wrapped::getInitValue(input)` (line 134): `input % getSpanSize()`.
`spanSize` is what `getSpanSize()` returns, the number of elements of the parent span.  The
`%` of C++ on `int` truncates towards zero, so it is `Int.tmod`; for a positive span size
the result lies strictly between `-spanSize` and `spanSize` and no overflow arises. -/
def Wrapped.getInitValue (spanSize : Int) (input : Int) : Int :=
  Int.tmod input spanSize

end SpanType

/-! ## Part II — theorems -/

namespace DspInstance

theorem fillSampleData_mismatch (bs : List VariantBuffer) (s : Nat)
    (acc : List VariantBuffer) (h : ∃ x ∈ bs, x.size ≠ s) :
    fillSampleData (bs.map Var.buffer) (s : Int) acc = .error "Buffer size mismatch" := by
  induction bs generalizing acc with
  | nil => simp at h
  | cons b rest ih =>
    by_cases hb : b.size = s
    · have hrest : ∃ x ∈ rest, x.size ≠ s := by
        obtain ⟨x, hx, hne⟩ := h
        rcases List.mem_cons.mp hx with rfl | hx
        · exact absurd hb hne
        · exact ⟨x, hx, hne⟩
      have hs : ¬ ((s : Int) ≠ -1 ∧ ((b.size : Nat) : Int) ≠ (s : Int)) := by
        rw [hb]; simp
      simp only [List.map_cons, fillSampleData, Var.getBuffer, if_neg hs]
      rw [hb]
      exact ih _ hrest
    · have hs : (s : Int) ≠ -1 ∧ ((b.size : Nat) : Int) ≠ (s : Int) := by
        constructor
        · omega
        · exact_mod_cast hb
      simp only [List.map_cons, fillSampleData, Var.getBuffer, if_pos hs, throwErr]

theorem sizesDiffer_cons (b : VariantBuffer) (rest : List VariantBuffer)
    (h : SizesDiffer (b :: rest)) : ∃ x ∈ rest, x.size ≠ b.size := by
  obtain ⟨x, hx, y, hy, hne⟩ := h
  by_contra hall
  push_neg at hall
  have hx' : x.size = b.size := by
    rcases List.mem_cons.mp hx with rfl | hx
    · rfl
    · exact hall x hx
  have hy' : y.size = b.size := by
    rcases List.mem_cons.mp hy with rfl | hy
    · rfl
    · exact hall y hy
  exact hne (hx'.trans hy'.symm)

/-- C2 (as amended): on an instance with a loaded module, an array of buffers in which two of
the first four buffers have different sizes makes `processBlock` raise "Buffer size
mismatch"; the module's `processBlock` is not called (the result is the error, not a call). -/
theorem processBlock_size_mismatch_first_four (bs : List VariantBuffer)
    (h : SizesDiffer (bs.take 4)) :
    processBlock true (bufferArray bs) = .error "Buffer size mismatch" := by
  have htake : (bs.map Var.buffer).take (min 4 (bs.map Var.buffer).length)
      = (bs.take 4).map Var.buffer := by
    rw [List.length_map, ← List.map_take]
    congr 1
    rcases Nat.le_total 4 bs.length with h4 | h4
    · rw [Nat.min_eq_left h4]
    · rw [Nat.min_eq_right h4, List.take_of_length_le h4, List.take_of_length_le (le_refl _)]
  cases hb : bs.take 4 with
  | nil => rw [hb] at h; obtain ⟨x, hx, _⟩ := h; simp at hx
  | cons b rest =>
    rw [hb] at h
    have hrest := sizesDiffer_cons b rest h
    have hfill : fillSampleData ((b :: rest).map Var.buffer) (-1) []
        = .error "Buffer size mismatch" := by
      simp only [List.map_cons, fillSampleData, Var.getBuffer]
      have hs : ¬ ((-1 : Int) ≠ -1 ∧ ((b.size : Nat) : Int) ≠ (-1 : Int)) := by simp
      rw [if_neg hs]
      exact fillSampleData_mismatch rest b.size _ hrest
    simp only [processBlock, bufferArray, Var.isArray, Var.getArray, if_true]
    rw [htake, hb, hfill]

/-- Witness for C2: buffers of 8, 8 and 16 samples. -/
theorem processBlock_size_mismatch_first_four_witness :
    SizesDiffer (List.take 4 [⟨0, 8⟩, ⟨1, 8⟩, ⟨2, 16⟩]) ∧
    processBlock true (bufferArray [⟨0, 8⟩, ⟨1, 8⟩, ⟨2, 16⟩]) =
      .error "Buffer size mismatch" :=
  ⟨by decide, processBlock_size_mismatch_first_four _ (by decide)⟩

/-- C2 (counterexample to the claim as stated): five buffers of 8, 8, 8, 8 and 16 samples
have inconsistent sizes, yet no error is raised and the module is called, with five
channels of 8 samples. -/
theorem processBlock_fifth_buffer_not_compared :
    SizesDiffer [⟨0, 8⟩, ⟨1, 8⟩, ⟨2, 8⟩, ⟨3, 8⟩, ⟨4, 16⟩] ∧
    processBlock true (bufferArray [⟨0, 8⟩, ⟨1, 8⟩, ⟨2, 8⟩, ⟨3, 8⟩, ⟨4, 16⟩]) =
      .ok (some { sampleData := [⟨0, 8⟩, ⟨1, 8⟩, ⟨2, 8⟩, ⟨3, 8⟩],
                  numChannels := 5, numSamples := 8 }) :=
  ⟨by decide, rfl⟩

end DspInstance

namespace DspFactory

/-- C3 (what the code does): when the name matches no static factory and no loaded plugin
and the dynamic library opens successfully, `getFactory` appends the new factory to the
loaded plugins but returns `nullptr`, not the new instance: the `ScopedPointer` was released
into the array before it is returned. -/
theorem getFactory_new_library_returns_nullptr (p : Platform) (h : Handler)
    (name password : String) (lib : DynamicDspFactory)
    (hstatic : ∀ f ∈ h.staticFactories, f.getId ≠ name)
    (hloaded : ∀ f ∈ h.loadedPlugins, f.getId ≠ name)
    (hopen : DynamicDspFactory.new p name password = .ok lib) :
    h.getFactory p name password =
      .ok (none, { h with loadedPlugins := h.loadedPlugins ++ [.dynamicFactory lib] }) := by
  have h1 : h.staticFactories.find? (fun f => f.getId == name) = none := by
    rw [List.find?_eq_none]
    intro f hf
    simpa using hstatic f hf
  have h2 : h.loadedPlugins.find? (fun f => f.getId == name) = none := by
    rw [List.find?_eq_none]
    intro f hf
    simpa using hloaded f hf
  simp only [Handler.getFactory, h1, h2, hopen, ScopedPointer.release, ScopedPointer.get,
    addFactory]

/-- Witness for C3: one static factory "core", nothing loaded, and an unlocked library
"synth" that has `initialise`. -/
theorem getFactory_new_library_returns_nullptr_witness :
    Handler.getFactory
        { library := fun n => if n = "synth" then some ⟨none, true⟩ else none,
          dynamicId := fun n => n }
        { staticFactories := [.staticFactory "core"], loadedPlugins := [] } "synth" "" =
      .ok (none, { staticFactories := [.staticFactory "core"],
                   loadedPlugins := [.dynamicFactory ⟨"synth", "synth", ⟨none, true⟩⟩] }) :=
  getFactory_new_library_returns_nullptr _ _ "synth" "" ⟨"synth", "synth", ⟨none, true⟩⟩
    (by simp [Factory.getId]) (by simp) rfl

end DspFactory

namespace HlacTool

theorem main_of_argc_ne_two {D : Type} (env : Env D) (argc : Int) (argv : List String)
    (h : argc ≠ 2) :
    main env argc argv =
      { exitCode := 1
        state := (initialState env).emit (usage ++ [.setCurrentLogger false]) } := by
  simp only [main, if_pos h]

/-- C4: when `argc` is not 2, `main` logs the usage text (and nothing else), makes no call
into the file system, the loader or the codec, and returns 1. -/
theorem main_usage {D : Type} (env : Env D) (argc : Int) (argv : List String)
    (h : argc ≠ 2) :
    (main env argc argv).exitCode = 1 ∧
    (main env argc argv).state.events =
      [.setCurrentLogger true] ++ usage ++ [.setCurrentLogger false] ∧
    calls (main env argc argv).state.events = [] ∧
    (main env argc argv).state.numFilesChecked = 0 := by
  rw [main_of_argc_ne_two env argc argv h]
  exact ⟨rfl, rfl, rfl, rfl⟩

/-- Witness for C4: the tool run without a folder argument. -/
theorem main_usage_witness :
    (main (demoEnv [] none none) 1 ["hlac_tool"]).exitCode = 1 ∧
    (main (demoEnv [] none none) 1 ["hlac_tool"]).state.events =
      [.setCurrentLogger true] ++ usage ++ [.setCurrentLogger false] ∧
    calls (main (demoEnv [] none none) 1 ["hlac_tool"]).state.events = [] ∧
    (main (demoEnv [] none none) 1 ["hlac_tool"]).state.numFilesChecked = 0 :=
  main_usage (demoEnv [] none none) 1 ["hlac_tool"] (by decide)

end HlacTool

namespace HlacTool

theorem loop_append {D : Type} (env : Env D) (s : State D) (pre post : List File) :
    loop env s (pre ++ post) = (loop env s pre).andThen (fun s1 => loop env s1 post) := by
  induction pre generalizing s with
  | nil => rfl
  | cons f rest ih =>
    simp only [List.cons_append, loop]
    cases loopBody env s f with
    | next s1 => simpa [Flow.andThen] using ih s1
    | exit code s1 => rfl

theorem loopBody_skipped {D : Type} (env : Env D) (s : State D) (f : File)
    (h : skipped f = true) : loopBody env s f = .next s := by
  unfold skipped at h
  simp only [loopBody, h, if_true]

theorem loopBody_succeeds {D : Type} (env : Env D) (s : State D) (f : File)
    (hs : skipped f = false) (hok : Succeeds env f) :
    ∃ s1, loopBody env s f = .next s1 ∧ s1.events = s.events ++ fileEvents env f ∧
      s1.numFilesChecked = s.numFilesChecked + 1 := by
  obtain ⟨⟨b, speed, hload⟩, hw⟩ := hok
  unfold skipped at hs
  have hb : loadedBuffer env f = b := by simp only [loadedBuffer, hload]
  simp only [loopBody, hs, hload, hw, flacPass, blockPass, deltaPass, diffPass,
    Flow.andThen, useBlock, useDelta, useDiff, checkWithFlac, if_true, Bool.false_eq_true,
    if_false, reduceCtorEq]
  refine ⟨_, rfl, ?_, ?_⟩
  · simp [State.emit, fileEvents, fileHeader, passEvents, passCalls, passLabel, hb]
  · simp [State.emit]

end HlacTool

namespace HlacTool

theorem loop_complete {D : Type} (env : Env D) (files : List File) (s : State D)
    (h : ∀ f ∈ files, skipped f = false → Succeeds env f) :
    ∃ s1, loop env s files = .next s1 ∧
      s1.events = s.events ++ (checkedFiles files).flatMap (fileEvents env) ∧
      s1.numFilesChecked = s.numFilesChecked + (checkedFiles files).length := by
  induction files generalizing s with
  | nil => exact ⟨s, rfl, by simp [checkedFiles], by simp [checkedFiles]⟩
  | cons f rest ih =>
    have hrest : ∀ g ∈ rest, skipped g = false → Succeeds env g :=
      fun g hg => h g (List.mem_cons_of_mem _ hg)
    cases hf : skipped f with
    | true =>
      obtain ⟨s1, h1, h2, h3⟩ := ih s hrest
      refine ⟨s1, ?_, ?_, ?_⟩
      · simp only [loop, loopBody_skipped env s f hf, Flow.andThen, h1]
      · simpa [checkedFiles, hf] using h2
      · simpa [checkedFiles, hf] using h3
    | false =>
      obtain ⟨s0, hb, he, hn⟩ := loopBody_succeeds env s f hf (h f (List.mem_cons_self _ _) hf)
      obtain ⟨s1, h1, h2, h3⟩ := ih s0 hrest
      refine ⟨s1, ?_, ?_, ?_⟩
      · simp only [loop, hb, Flow.andThen, h1]
      · rw [h2, he]
        simp [checkedFiles, hf]
      · rw [h3, hn]
        simp [checkedFiles, hf]
        omega

theorem calls_append (xs ys : List Event) : calls (xs ++ ys) = calls xs ++ calls ys := by
  simp [calls]

theorem calls_fileEvents {D : Type} (env : Env D) (f : File) :
    calls (fileEvents env f) = fileCalls env f := by
  simp [calls, fileEvents, fileCalls, fileHeader, passEvents, passCalls, roundTripEvents,
    List.filter_cons, Event.isCall]

theorem calls_bind_fileEvents {D : Type} (env : Env D) (files : List File) :
    calls (files.flatMap (fileEvents env)) = files.flatMap (fileCalls env) := by
  induction files with
  | nil => rfl
  | cons f rest ih =>
    simp only [List.flatMap_cons, calls_append, calls_fileEvents, ih]

theorem calls_summary {D : Type} (env : Env D) (s : State D) :
    calls (summary env s).events = calls s.events := by
  simp [summary, State.emit, calls, checkWithFlac, useBlock, useDelta, useDiff,
    List.filter_cons, Event.isCall]

theorem summary_numFilesChecked {D : Type} (env : Env D) (s : State D) :
    (summary env s).numFilesChecked = s.numFilesChecked := by
  simp [summary, State.emit]

end HlacTool

namespace HlacTool

/-- C5: when the files found are `pre ++ f :: post`, every file of `pre` that is not skipped
loads and gets its writers, and loading the non-skipped file `f` throws `err`, then `main`
returns 1; after the complete treatment of the files of `pre` its trace holds only the
header of `f`, the failed load, the logged error and the removal of the logger.  So neither
`f` nor a file of `post` reaches FLAC or one of the three passes, and no summary is logged. -/
theorem main_load_failure {D : Type} (env : Env D) (tool folder : String)
    (pre post : List File) (f : File) (err : String)
    (hfiles : env.findChildFiles folder = pre ++ f :: post)
    (hpre : ∀ g ∈ pre, skipped g = false → Succeeds env g)
    (hf : skipped f = false)
    (hload : env.loadFile f = .error err) :
    (main env 2 [tool, folder]).exitCode = 1 ∧
    (main env 2 [tool, folder]).state.events =
      [.setCurrentLogger true, .findChildFiles folder true]
        ++ (checkedFiles pre).flatMap (fileEvents env)
        ++ fileHeader f ++ [.loadFile f, .writeToLog err, .setCurrentLogger false] ∧
    calls (main env 2 [tool, folder]).state.events =
      .findChildFiles folder true :: (checkedFiles pre).flatMap (fileCalls env)
        ++ [.loadFile f] := by
  obtain ⟨s1, h1, h2, _⟩ :=
    loop_complete env pre ((initialState env).emit [.findChildFiles folder true]) hpre
  have hbody : loopBody env s1 f =
      .exit 1 ((({ s1 with numFilesChecked := s1.numFilesChecked + 1 } : State D).emit
        (fileHeader f ++ [.loadFile f])).emit [.writeToLog err, .setCurrentLogger false]) := by
    unfold skipped at hf
    simp only [loopBody, hf, hload, Bool.false_eq_true, if_false]
    rfl
  have hm : main env 2 [tool, folder] =
      { exitCode := 1
        state := (({ s1 with numFilesChecked := s1.numFilesChecked + 1 } : State D).emit
          (fileHeader f ++ [.loadFile f])).emit
            [.writeToLog err, .setCurrentLogger false] } := by
    have hroot : ([tool, folder] : List String).getD 1 "" = folder := rfl
    simp only [main, ne_eq, not_true_eq_false, if_false, hroot, hfiles, loop_append, h1,
      Flow.andThen, loop, hbody]
  have hev : (main env 2 [tool, folder]).state.events =
      [.setCurrentLogger true, .findChildFiles folder true]
        ++ (checkedFiles pre).flatMap (fileEvents env)
        ++ fileHeader f ++ [.loadFile f, .writeToLog err, .setCurrentLogger false] := by
    rw [hm]
    simp [State.emit, h2, initialState]
  refine ⟨by rw [hm], hev, ?_⟩
  rw [hev]
  simp only [calls_append, calls_bind_fileEvents]
  simp [calls, fileHeader, Event.isCall]

end HlacTool

namespace HlacTool

theorem demoEnv_succeeds (files : List File) (failLoad failWriter : Option File) (g : File)
    (h1 : some g ≠ failLoad) (h2 : some g ≠ failWriter) :
    Succeeds (demoEnv files failLoad failWriter) g := by
  refine ⟨⟨⟨0, [[]]⟩, 1, ?_⟩, fun m => ?_⟩
  · simp [demoEnv, h1]
  · simp [demoEnv, h2]

/-- Witness for C5: three files, the second of which fails to load. -/
theorem main_load_failure_witness :
    (main (demoEnv [demoFile "a.wav", demoFile "b.wav", demoFile "c.wav"]
        (some (demoFile "b.wav")) none) 2 ["hlac_tool", "/samples"]).exitCode = 1 :=
  (main_load_failure
    (demoEnv [demoFile "a.wav", demoFile "b.wav", demoFile "c.wav"]
      (some (demoFile "b.wav")) none)
    "hlac_tool" "/samples" [demoFile "a.wav"] [demoFile "c.wav"] (demoFile "b.wav")
    "Could not load file" rfl
    (fun g hg _ => demoEnv_succeeds _ _ _ g
      (by rw [List.mem_singleton.mp hg]; decide) (by simp))
    (by decide) (by simp [demoEnv])).1

end HlacTool

namespace HlacTool

theorem main_complete {D : Type} (env : Env D) (tool folder : String)
    (h : ∀ f ∈ env.findChildFiles folder, skipped f = false → Succeeds env f) :
    ∃ s1, main env 2 [tool, folder] = { exitCode := 0, state := summary env s1 } ∧
      s1.events = [.setCurrentLogger true, .findChildFiles folder true]
        ++ (checkedFiles (env.findChildFiles folder)).flatMap (fileEvents env) ∧
      s1.numFilesChecked = (checkedFiles (env.findChildFiles folder)).length := by
  obtain ⟨s1, h1, h2, h3⟩ := loop_complete env (env.findChildFiles folder)
    ((initialState env).emit [.findChildFiles folder true]) h
  refine ⟨s1, ?_, ?_, ?_⟩
  · have hroot : ([tool, folder] : List String).getD 1 "" = folder := rfl
    simp only [main, ne_eq, not_true_eq_false, if_false, hroot, h1]
  · rw [h2]; simp [State.emit, initialState]
  · rw [h3]; simp [State.emit, initialState]

/-- C6: with exactly one folder argument, when every file found that is not skipped loads
and gets its writer in each pass, `main` returns 0, and its calls are: the recursive file
search, then for every non-skipped file, in the order found, the load, the FLAC comparison,
and the complete block, delta and diff passes in that order. -/
theorem main_full_comparison {D : Type} (env : Env D) (tool folder : String)
    (h : ∀ f ∈ env.findChildFiles folder, skipped f = false → Succeeds env f) :
    (main env 2 [tool, folder]).exitCode = 0 ∧
    calls (main env 2 [tool, folder]).state.events =
      .findChildFiles folder true ::
        (checkedFiles (env.findChildFiles folder)).flatMap (fileCalls env) := by
  obtain ⟨s1, hm, he, _⟩ := main_complete env tool folder h
  rw [hm]
  refine ⟨rfl, ?_⟩
  simp only [calls_summary, he, calls_append, calls_bind_fileEvents]
  simp [calls, Event.isCall]

/-- Witness for C6: a folder with two files to check and one to skip. -/
theorem main_full_comparison_witness :
    (main (demoEnv [demoFile "a.wav", demoFile "_b.wav", demoFile "c.wav"] none none) 2
      ["hlac_tool", "/samples"]).exitCode = 0 ∧
    calls (main (demoEnv [demoFile "a.wav", demoFile "_b.wav", demoFile "c.wav"] none none) 2
      ["hlac_tool", "/samples"]).state.events =
      .findChildFiles "/samples" true ::
        (checkedFiles [demoFile "a.wav", demoFile "_b.wav", demoFile "c.wav"]).flatMap
          (fileCalls (demoEnv [demoFile "a.wav", demoFile "_b.wav", demoFile "c.wav"]
            none none)) :=
  main_full_comparison
    (demoEnv [demoFile "a.wav", demoFile "_b.wav", demoFile "c.wav"] none none)
    "hlac_tool" "/samples"
    (fun g _ _ => demoEnv_succeeds _ _ _ g (by simp) (by simp))

/-- C7 (counterexample to the claim as stated): invoked with one argument under which the
file search finds nothing, `main` returns 0, not 1. -/
theorem main_missing_folder_exit_code :
    (demoEnv [] none none).findChildFiles "/no/such/folder" = [] ∧
    (main (demoEnv [] none none) 2 ["hlac_tool", "/no/such/folder"]).exitCode = 0 :=
  ⟨rfl, rfl⟩

/-- C7 (as amended): invoked with exactly one argument under which the file search finds
no files, `main` checks no file (its only call is the file search), logs the summary and
returns 0. -/
theorem main_no_files_found {D : Type} (env : Env D) (tool folder : String)
    (h : env.findChildFiles folder = []) :
    (main env 2 [tool, folder]).exitCode = 0 ∧
    (main env 2 [tool, folder]).state.numFilesChecked = 0 ∧
    calls (main env 2 [tool, folder]).state.events = [.findChildFiles folder true] ∧
    (main env 2 [tool, folder]).state =
      summary env ((initialState env).emit [.findChildFiles folder true]) := by
  have hroot : ([tool, folder] : List String).getD 1 "" = folder := rfl
  have hm : main env 2 [tool, folder] =
      { exitCode := 0
        state := summary env ((initialState env).emit [.findChildFiles folder true]) } := by
    simp only [main, ne_eq, not_true_eq_false, if_false, hroot, h, loop]
  rw [hm]
  refine ⟨rfl, ?_, ?_, rfl⟩
  · simp [summary_numFilesChecked, State.emit, initialState]
  · simp only [calls_summary]
    simp [calls, State.emit, initialState, Event.isCall]

/-- Witness for C7: a run on a path under which nothing is found. -/
theorem main_no_files_found_witness :
    (main (demoEnv [] none none) 2 ["hlac_tool", "/no/such/folder"]).exitCode = 0 :=
  (main_no_files_found (demoEnv [] none none) "hlac_tool" "/no/such/folder" rfl).1

end HlacTool

namespace HlacTool

theorem loopBody_writer_failure {D : Type} (env : Env D) (s : State D) (f : File) (m : Mode)
    (b : AudioSampleBuffer) (speed : D)
    (hf : skipped f = false)
    (hload : env.loadFile f = .ok (b, speed))
    (hbefore : ∀ m1 ∈ modesBefore m, env.createWriterFor m1 f = true)
    (hfail : env.createWriterFor m f = false) :
    ∃ s2, loopBody env s f = .exit 1 s2 ∧
      s2.events = s.events ++ fileHeader f
        ++ [.loadFile f, .getFLACRatio f,
            .writeToLog ("Compressing with FLAC:  " ++ env.ops.str (env.getFLACRatio f).1 3)]
        ++ (modesBefore m).flatMap (fun m1 => passEvents env m1 f)
        ++ [.createWriterFor m f] := by
  unfold skipped at hf
  have hb : loadedBuffer env f = b := by simp only [loadedBuffer, hload]
  cases m with
  | block =>
    simp only [loopBody, hf, hload, hfail, flacPass, blockPass, Flow.andThen, useBlock,
      checkWithFlac, if_true, Bool.false_eq_true, if_false]
    refine ⟨_, rfl, ?_⟩
    simp [State.emit, fileHeader, modesBefore]
  | delta =>
    have h1 : env.createWriterFor .block f = true := hbefore .block (by simp [modesBefore])
    simp only [loopBody, hf, hload, hfail, h1, flacPass, blockPass, deltaPass, Flow.andThen,
      useBlock, useDelta, checkWithFlac, if_true, Bool.false_eq_true, if_false, reduceCtorEq]
    refine ⟨_, rfl, ?_⟩
    simp [State.emit, fileHeader, modesBefore, passEvents, passCalls, passLabel, hb]
  | diff =>
    have h1 : env.createWriterFor .block f = true := hbefore .block (by simp [modesBefore])
    have h2 : env.createWriterFor .delta f = true := hbefore .delta (by simp [modesBefore])
    simp only [loopBody, hf, hload, hfail, h1, h2, flacPass, blockPass, deltaPass, diffPass,
      Flow.andThen, useBlock, useDelta, useDiff, checkWithFlac, if_true, Bool.false_eq_true,
      if_false, reduceCtorEq]
    refine ⟨_, rfl, ?_⟩
    simp [State.emit, fileHeader, modesBefore, passEvents, passCalls, passLabel, hb]

/-- C9 (what the code does): when the writer of pass `m` for the non-skipped file `f` is not
created (the passes before `m` got theirs), `main` returns 1 and its trace stops at the
failed `createWriterFor`: nothing more is produced for `f`, but no error is logged either
and the logger is not removed. -/
theorem main_writer_failure {D : Type} (env : Env D) (tool folder : String)
    (pre post : List File) (f : File) (m : Mode) (b : AudioSampleBuffer) (speed : D)
    (hfiles : env.findChildFiles folder = pre ++ f :: post)
    (hpre : ∀ g ∈ pre, skipped g = false → Succeeds env g)
    (hf : skipped f = false)
    (hload : env.loadFile f = .ok (b, speed))
    (hbefore : ∀ m1 ∈ modesBefore m, env.createWriterFor m1 f = true)
    (hfail : env.createWriterFor m f = false) :
    (main env 2 [tool, folder]).exitCode = 1 ∧
    (main env 2 [tool, folder]).state.events =
      [.setCurrentLogger true, .findChildFiles folder true]
        ++ (checkedFiles pre).flatMap (fileEvents env)
        ++ fileHeader f
        ++ [.loadFile f, .getFLACRatio f,
            .writeToLog ("Compressing with FLAC:  " ++ env.ops.str (env.getFLACRatio f).1 3)]
        ++ (modesBefore m).flatMap (fun m1 => passEvents env m1 f)
        ++ [.createWriterFor m f] := by
  obtain ⟨s1, h1, h2, _⟩ :=
    loop_complete env pre ((initialState env).emit [.findChildFiles folder true]) hpre
  obtain ⟨s2, hb, he⟩ := loopBody_writer_failure env s1 f m b speed hf hload hbefore hfail
  have hroot : ([tool, folder] : List String).getD 1 "" = folder := rfl
  have hm : main env 2 [tool, folder] = { exitCode := 1, state := s2 } := by
    simp only [main, ne_eq, not_true_eq_false, if_false, hroot, hfiles, loop_append, h1,
      Flow.andThen, loop, hb]
  rw [hm]
  refine ⟨rfl, ?_⟩
  simp only [he, h2]
  simp [State.emit, initialState]

/-- Witness for C9: a single file whose block writer is not created. -/
theorem main_writer_failure_witness :
    (main (demoEnv [demoFile "a.wav"] none (some (demoFile "a.wav"))) 2
      ["hlac_tool", "/samples"]).exitCode = 1 ∧
    (main (demoEnv [demoFile "a.wav"] none (some (demoFile "a.wav"))) 2
      ["hlac_tool", "/samples"]).state.events =
      [.setCurrentLogger true, .findChildFiles "/samples" true,
       .writeToLog "", .writeToLog "Compressing file a.wav",
       .writeToLog (rule '-' 68),
       .loadFile (demoFile "a.wav"), .getFLACRatio (demoFile "a.wav"),
       .writeToLog "Compressing with FLAC:  ",
       .createWriterFor .block (demoFile "a.wav")] :=
  main_writer_failure (demoEnv [demoFile "a.wav"] none (some (demoFile "a.wav")))
    "hlac_tool" "/samples" [] [] (demoFile "a.wav") .block ⟨0, [[]]⟩ 1 rfl
    (by simp) (by decide) (by simp [demoEnv]) (by simp [modesBefore]) (by simp [demoEnv])

end HlacTool

namespace HlacTool

theorem loopBody_within {D : Type} (env : Env D) (s : State D) (f : File) :
    ∃ es, (loopBody env s f).state.events = s.events ++ es ∧
      ∀ e ∈ es, skipped f = false ∧ e.within env f := by
  cases hf : skipped f with
  | true =>
    refine ⟨[], ?_, by simp⟩
    rw [loopBody_skipped env s f hf]
    simp [Flow.state]
  | false =>
    unfold skipped at hf
    cases hload : env.loadFile f with
    | error err =>
      simp only [loopBody, hf, hload, Bool.false_eq_true, if_false]
      refine ⟨_, by simp only [Flow.state, State.emit, List.append_assoc]; rfl, ?_⟩
      simp [Event.within]
    | ok v =>
      obtain ⟨b, speed⟩ := v
      cases h1 : env.createWriterFor .block f <;> cases h2 : env.createWriterFor .delta f <;>
        cases h3 : env.createWriterFor .diff f <;>
        simp only [loopBody, hf, hload, h1, h2, h3, flacPass, blockPass, deltaPass, diffPass,
          Flow.andThen, useBlock, useDelta, useDiff, checkWithFlac, if_true,
          Bool.false_eq_true, if_false, reduceCtorEq] <;>
        refine ⟨_, by simp only [Flow.state, State.emit, List.append_assoc]; rfl, ?_⟩ <;>
        simp [Event.within, roundTripEvents]

theorem andThen_state_next {D : Type} (x : Flow D) (k : State D → Flow D) (s : State D)
    (h : x = .next s) : (x.andThen k).state = (k s).state := by
  subst h; rfl

theorem loop_within {D : Type} (env : Env D) (files : List File) (s : State D) :
    ∃ es, (loop env s files).state.events = s.events ++ es ∧
      ∀ e ∈ es, ∃ f ∈ files, skipped f = false ∧ e.within env f := by
  induction files generalizing s with
  | nil => exact ⟨[], by simp [loop, Flow.state], by simp⟩
  | cons f rest ih =>
    obtain ⟨es, he, hw⟩ := loopBody_within env s f
    cases hb : loopBody env s f with
    | exit code s1 =>
      rw [hb] at he
      refine ⟨es, ?_, ?_⟩
      · simpa [loop, hb, Flow.andThen, Flow.state] using he
      · intro e hm
        exact ⟨f, List.mem_cons_self _ _, hw e hm⟩
    | next s1 =>
      rw [hb] at he
      obtain ⟨es1, he1, hw1⟩ := ih s1
      refine ⟨es ++ es1, ?_, ?_⟩
      · simp only [loop, hb, Flow.andThen]
        rw [he1]
        simp only [Flow.state] at he
        rw [he, List.append_assoc]
      · intro e hm
        rcases List.mem_append.mp hm with hm | hm
        · exact ⟨f, List.mem_cons_self _ _, hw e hm⟩
        · obtain ⟨g, hg, hgw⟩ := hw1 e hm
          exact ⟨g, List.mem_cons_of_mem _ hg, hgw⟩

theorem main_within {D : Type} (env : Env D) (argc : Int) (argv : List String) (e : Event)
    (he : e ∈ (main env argc argv).state.events) :
    e.isCall = false ∨ e = .findChildFiles (argv.getD 1 "") true ∨
      ∃ f ∈ env.findChildFiles (argv.getD 1 ""), skipped f = false ∧ e.within env f := by
  by_cases h : argc ≠ 2
  · left
    rw [main_of_argc_ne_two env argc argv h] at he
    simp only [State.emit, initialState, usage, List.mem_append, List.mem_cons,
      List.mem_singleton, List.not_mem_nil, or_false] at he
    rcases he with rfl | (rfl | rfl | rfl | rfl) | rfl <;> rfl
  · obtain ⟨es, hes, hw⟩ := loop_within env (env.findChildFiles (argv.getD 1 ""))
      ((initialState env).emit [.findChildFiles (argv.getD 1 "") true])
    have hsplit : e ∈ ((initialState env).emit [.findChildFiles (argv.getD 1 "") true]).events
        ++ es ∨ e.isCall = false := by
      simp only [main, h, if_false] at he
      rw [← hes]
      cases hl : loop env ((initialState env).emit [.findChildFiles (argv.getD 1 "") true])
          (env.findChildFiles (argv.getD 1 "")) with
      | exit code s1 =>
        rw [hl] at he
        left; simpa [Flow.state] using he
      | next s1 =>
        rw [hl] at he
        simp only [Flow.state]
        by_cases hc : e.isCall = true
        · left
          have : e ∈ calls (summary env s1).events := by
            simp only [calls, List.mem_filter]; exact ⟨he, hc⟩
          rw [calls_summary] at this
          simp only [calls, List.mem_filter] at this
          exact this.1
        · right; simpa using hc
    rcases hsplit with hm | hm
    · rcases List.mem_append.mp hm with hm | hm
      · simp only [State.emit, initialState, List.mem_append, List.mem_singleton] at hm
        rcases hm with rfl | rfl
        · left; rfl
        · right; left; rfl
      · right; right; exact hw e hm
    · left; exact hm

end HlacTool

namespace HlacTool

theorem summary_events_subset {D : Type} (env : Env D) (s : State D) (e : Event)
    (h : e ∈ s.events) : e ∈ (summary env s).events := by
  simp only [summary, State.emit]
  exact List.mem_append_left _ h

theorem mem_events_of_complete {D : Type} (env : Env D) (tool folder : String)
    (h : ∀ f ∈ env.findChildFiles folder, skipped f = false → Succeeds env f)
    (f : File) (hf : f ∈ checkedFiles (env.findChildFiles folder)) (e : Event)
    (he : e ∈ fileEvents env f) :
    e ∈ (main env 2 [tool, folder]).state.events := by
  obtain ⟨s1, hm, hev, _⟩ := main_complete env tool folder h
  rw [hm]
  apply summary_events_subset
  rw [hev]
  apply List.mem_append_right
  exact List.mem_flatMap.mpr ⟨f, hf, he⟩

theorem setOptions_mem_fileEvents {D : Type} (env : Env D) (m : Mode) (f : File) :
    Event.setOptions m f (optionsOf env.defaults m) ∈ fileEvents env f := by
  cases m <;> simp [fileEvents, passEvents, passCalls, roundTripEvents]

/-- C10: every `CompressorOptions` value that reaches `setOptions` in a run of `main` is the
one of its pass, never has both `useDeltaEncoding` and `useDiffEncodingWithFixedBlocks` set,
and selects the mode of the pass: block has neither flag (width 512), delta has only
`useDeltaEncoding` (width -1), diff has only `useDiffEncodingWithFixedBlocks` (width 1024,
`bitRateForWholeBlock` 4). -/
theorem setOptions_selects_one_mode {D : Type} (env : Env D) (argc : Int)
    (argv : List String) (m : Mode) (f : File) (o : CompressorOptions)
    (h : Event.setOptions m f o ∈ (main env argc argv).state.events) :
    o = optionsOf env.defaults m ∧
    ¬ (o.useDeltaEncoding = true ∧ o.useDiffEncodingWithFixedBlocks = true) ∧
    (m = .block → o.fixedBlockWidth = 512 ∧ o.useDeltaEncoding = false ∧
      o.useDiffEncodingWithFixedBlocks = false) ∧
    (m = .delta → o.fixedBlockWidth = -1 ∧ o.useDeltaEncoding = true ∧
      o.useDiffEncodingWithFixedBlocks = false) ∧
    (m = .diff → o.fixedBlockWidth = 1024 ∧ o.bitRateForWholeBlock = 4 ∧
      o.useDeltaEncoding = false ∧ o.useDiffEncodingWithFixedBlocks = true) := by
  have ho : o = optionsOf env.defaults m := by
    rcases main_within env argc argv _ h with hc | hc | ⟨g, _, _, hw⟩
    · simp [Event.isCall] at hc
    · simp at hc
    · exact hw.2
  subst ho
  refine ⟨rfl, ?_, ?_, ?_, ?_⟩
  · cases m <;> simp [optionsOf, wholeBlock, delta, diff]
  · rintro rfl; simp [optionsOf, wholeBlock]
  · rintro rfl; simp [optionsOf, delta]
  · rintro rfl; simp [optionsOf, diff]

/-- Witness for C10: the options of the delta pass in a run over one file. -/
theorem setOptions_selects_one_mode_witness :
    (delta (demoEnv [demoFile "a.wav"] none none).defaults).fixedBlockWidth = -1 ∧
    (delta (demoEnv [demoFile "a.wav"] none none).defaults).useDeltaEncoding = true ∧
    (delta (demoEnv [demoFile "a.wav"] none none).defaults).useDiffEncodingWithFixedBlocks
      = false :=
  (setOptions_selects_one_mode (demoEnv [demoFile "a.wav"] none none) 2
    ["hlac_tool", "/samples"] .delta (demoFile "a.wav")
    (delta (demoEnv [demoFile "a.wav"] none none).defaults)
    (mem_events_of_complete _ "hlac_tool" "/samples"
      (fun g _ _ => demoEnv_succeeds _ _ _ g (by simp) (by simp))
      (demoFile "a.wav") (by decide) _ (setOptions_mem_fileEvents _ .delta _))).2.2.2.1 rfl

end HlacTool

namespace HlacTool

theorem loopBody_count {D : Type} (env : Env D) (s : State D) (f : File)
    (hf : skipped f = false) :
    (loopBody env s f).state.numFilesChecked = s.numFilesChecked + 1 ∧
    ∀ code s1, loopBody env s f = .exit code s1 → code = 1 := by
  unfold skipped at hf
  cases hload : env.loadFile f with
  | error err =>
    simp only [loopBody, hf, hload, Bool.false_eq_true, if_false]
    refine ⟨rfl, ?_⟩
    intro code s1 h
    cases h; rfl
  | ok v =>
    obtain ⟨b, speed⟩ := v
    cases h1 : env.createWriterFor .block f <;> cases h2 : env.createWriterFor .delta f <;>
      cases h3 : env.createWriterFor .diff f <;>
      simp only [loopBody, hf, hload, h1, h2, h3, flacPass, blockPass, deltaPass, diffPass,
        Flow.andThen, useBlock, useDelta, useDiff, checkWithFlac, if_true,
        Bool.false_eq_true, if_false, reduceCtorEq] <;>
      refine ⟨rfl, ?_⟩ <;> intro code s1 h <;> cases h <;> rfl

theorem loop_checkedFiles {D : Type} (env : Env D) (files : List File) (s : State D) :
    loop env s files = loop env s (checkedFiles files) := by
  induction files generalizing s with
  | nil => rfl
  | cons f rest ih =>
    cases hf : skipped f with
    | true =>
      have hc : checkedFiles (f :: rest) = checkedFiles rest := by simp [checkedFiles, hf]
      rw [hc, ← ih s]
      simp only [loop, loopBody_skipped env s f hf, Flow.andThen]
    | false =>
      have hc : checkedFiles (f :: rest) = f :: checkedFiles rest := by
        simp [checkedFiles, hf]
      rw [hc]
      simp only [loop]
      congr 1
      funext s1
      exact ih s1

theorem loop_count {D : Type} (env : Env D) (files : List File) (s : State D) :
    (loop env s files).state.numFilesChecked ≤ s.numFilesChecked + (checkedFiles files).length ∧
    (∀ s1, loop env s files = .next s1 →
      s1.numFilesChecked = s.numFilesChecked + (checkedFiles files).length) ∧
    (∀ code s1, loop env s files = .exit code s1 → code = 1) := by
  induction files generalizing s with
  | nil =>
    refine ⟨by simp [loop, Flow.state], ?_, ?_⟩
    · intro s1 h; cases h; simp [checkedFiles]
    · intro code s1 h; cases h
  | cons f rest ih =>
    cases hf : skipped f with
    | true =>
      have hc : checkedFiles (f :: rest) = checkedFiles rest := by simp [checkedFiles, hf]
      have hl : loop env s (f :: rest) = loop env s rest := by
        simp only [loop, loopBody_skipped env s f hf, Flow.andThen]
      rw [hc, hl]
      exact ih s
    | false =>
      have hc : (checkedFiles (f :: rest)).length = (checkedFiles rest).length + 1 := by
        simp [checkedFiles, hf]
      obtain ⟨hn, hcode⟩ := loopBody_count env s f hf
      cases hb : loopBody env s f with
      | exit code s1 =>
        rw [hb] at hn
        simp only [Flow.state] at hn
        have hl : loop env s (f :: rest) = .exit code s1 := by
          simp only [loop, hb, Flow.andThen]
        rw [hl, hc]
        refine ⟨by simp only [Flow.state]; omega, ?_, ?_⟩
        · intro s2 h; cases h
        · intro c s2 h
          cases h
          exact hcode _ _ hb
      | next s1 =>
        rw [hb] at hn
        simp only [Flow.state] at hn
        have hl : loop env s (f :: rest) = loop env s1 rest := by
          simp only [loop, hb, Flow.andThen]
        obtain ⟨i1, i2, i3⟩ := ih s1
        rw [hl, hc]
        refine ⟨by omega, ?_, i3⟩
        intro s2 h
        rw [i2 s2 h]; omega

theorem loop_findChildFiles {D : Type} (env : Env D) (find : String → List File)
    (files : List File) (s : State D) :
    loop { env with findChildFiles := find } s files = loop env s files := by
  induction files generalizing s with
  | nil => rfl
  | cons f rest ih =>
    simp only [loop]
    have hb : loopBody { env with findChildFiles := find } s f = loopBody env s f := rfl
    rw [hb]
    congr 1
    funext s1
    exact ih s1

/-- C8: a file whose name starts with "_" is skipped: its loop iteration leaves the state
as it was (nothing is loaded or compressed, the sums and `numFilesChecked` are untouched),
no event of a run concerns such a file, and the run is the same as over the files found
without the skipped ones.  The iteration of a file whose name does not start with "_" adds
exactly one to `numFilesChecked`; `numFilesChecked` never exceeds the number of such files,
and equals it whenever the run reaches the summary (exit code 0). -/
theorem underscore_files_skipped {D : Type} (env : Env D) (tool folder : String) :
    (∀ f s, skipped f = true → loopBody env s f = .next s) ∧
    (∀ e ∈ (main env 2 [tool, folder]).state.events,
      ∀ f, skipped f = true → e.file? ≠ some f) ∧
    main env 2 [tool, folder] =
      main { env with findChildFiles := fun r => checkedFiles (env.findChildFiles r) } 2
        [tool, folder] ∧
    (∀ f s, skipped f = false →
      (loopBody env s f).state.numFilesChecked = s.numFilesChecked + 1) ∧
    (main env 2 [tool, folder]).state.numFilesChecked
      ≤ (checkedFiles (env.findChildFiles folder)).length ∧
    ((main env 2 [tool, folder]).exitCode = 0 →
      (main env 2 [tool, folder]).state.numFilesChecked
        = (checkedFiles (env.findChildFiles folder)).length) := by
  have hroot : ([tool, folder] : List String).getD 1 "" = folder := rfl
  obtain ⟨hle, hnext, hexit⟩ := loop_count env (env.findChildFiles folder)
    ((initialState env).emit [.findChildFiles folder true])
  have h0 : ((initialState env).emit [.findChildFiles folder true]).numFilesChecked = 0 := rfl
  rw [h0, Nat.zero_add] at hle
  refine ⟨fun f s hf => loopBody_skipped env s f hf, ?_, ?_,
    fun f s hf => (loopBody_count env s f hf).1, ?_, ?_⟩
  · intro e he f hf hfile
    rcases main_within env 2 [tool, folder] e he with hc | hc | ⟨g, _, hg, hw⟩
    · cases e <;> simp [Event.isCall, Event.file?] at hc hfile
    · subst hc; simp [Event.file?] at hfile
    · cases e <;> simp only [Event.file?, Option.some.injEq, reduceCtorEq] at hfile <;>
        simp only [Event.within] at hw
      all_goals first
        | (subst hfile; subst hw; rw [hf] at hg; cases hg)
        | (subst hfile; rw [hw.1] at hf; rw [hf] at hg; cases hg)
  · simp only [main, ne_eq, not_true_eq_false, if_false, hroot]
    rw [loop_checkedFiles env (env.findChildFiles folder),
      loop_findChildFiles env (fun r => checkedFiles (env.findChildFiles r))]
    rfl
  · simp only [main, ne_eq, not_true_eq_false, if_false, hroot]
    cases hl : loop env ((initialState env).emit [.findChildFiles folder true])
        (env.findChildFiles folder) with
    | exit code s1 => rw [hl] at hle; simpa [Flow.state] using hle
    | next s1 =>
      rw [hl] at hle
      simpa [Flow.state, summary_numFilesChecked] using hle
  · simp only [main, ne_eq, not_true_eq_false, if_false, hroot]
    cases hl : loop env ((initialState env).emit [.findChildFiles folder true])
        (env.findChildFiles folder) with
    | exit code s1 =>
      intro hcode
      have := hexit code s1 hl
      simp only at hcode
      omega
    | next s1 =>
      intro _
      simp only [summary_numFilesChecked]
      rw [hnext s1 hl, h0, Nat.zero_add]

end HlacTool

namespace HlacTool

/-- Witness for C8: of the three files found, the one named "_b.wav" is not counted. -/
theorem underscore_files_skipped_witness :
    (main (demoEnv [demoFile "a.wav", demoFile "_b.wav", demoFile "c.wav"] none none) 2
      ["hlac_tool", "/samples"]).state.numFilesChecked = 2 :=
  (underscore_files_skipped
    (demoEnv [demoFile "a.wav", demoFile "_b.wav", demoFile "c.wav"] none none)
    "hlac_tool" "/samples").2.2.2.2.2 rfl

end HlacTool

namespace Hlac

theorem length_unpackLE (base count n : Nat) : (unpackLE base count n).length = count := by
  induction count generalizing n with
  | zero => rfl
  | succ k ih => simp [unpackLE, ih]

theorem unpackLE_packLE (base : Nat) (hb : 0 < base) (vs : List Nat)
    (h : ∀ v ∈ vs, v < base) : unpackLE base vs.length (packLE base vs) = vs := by
  induction vs with
  | nil => rfl
  | cons v vs ih =>
    have hv : v < base := h v (List.mem_cons_self _ _)
    have hvs : ∀ u ∈ vs, u < base := fun u hu => h u (List.mem_cons_of_mem _ hu)
    simp only [List.length_cons, packLE, unpackLE]
    rw [Nat.add_mul_mod_self_left, Nat.mod_eq_of_lt hv, Nat.add_mul_div_left _ _ hb,
      Nat.div_eq_of_lt hv, Nat.zero_add, ih hvs]

theorem packLE_lt (base : Nat) (vs : List Nat) (h : ∀ v ∈ vs, v < base) :
    packLE base vs < base ^ vs.length := by
  induction vs with
  | nil => simp [packLE]
  | cons v vs ih =>
    have hv : v < base := h v (List.mem_cons_self _ _)
    have hvs : ∀ u ∈ vs, u < base := fun u hu => h u (List.mem_cons_of_mem _ hu)
    have h1 := ih hvs
    simp only [List.length_cons, packLE, pow_succ]
    calc v + base * packLE base vs
        < base + base * packLE base vs := by omega
      _ = base * (packLE base vs + 1) := by ring
      _ ≤ base * base ^ vs.length := Nat.mul_le_mul_left _ h1
      _ = base ^ vs.length * base := by ring

theorem packLE_unpackLE (base : Nat) (hb : 0 < base) (count n : Nat)
    (h : n < base ^ count) : packLE base (unpackLE base count n) = n := by
  induction count generalizing n with
  | zero =>
    simp only [pow_zero, Nat.lt_one_iff] at h
    simp [unpackLE, packLE, h]
  | succ k ih =>
    have hdiv : n / base < base ^ k := by
      rw [Nat.div_lt_iff_lt_mul hb]
      simpa [pow_succ] using h
    simp only [unpackLE, packLE, ih _ hdiv]
    exact Nat.mod_add_div n base

theorem length_toBytes (size n : Nat) : (toBytes size n).length = size :=
  length_unpackLE 256 size n

theorem fromBytes_toBytes (size n : Nat) (h : n < 256 ^ size) :
    fromBytes (toBytes size n) = n :=
  packLE_unpackLE 256 (by decide) size n h

theorem two_pow_pred (w : Nat) (hw : 1 ≤ w) : (2 : Nat) ^ w = 2 * 2 ^ (w - 1) := by
  obtain ⟨k, rfl⟩ : ∃ k, w = k + 1 := ⟨w - 1, by omega⟩
  simp [pow_succ, Nat.mul_comm]

theorem toUnsigned_lt (w : Nat) (x : Int) : toUnsigned w x < 2 ^ w := by
  unfold toUnsigned
  have hpos : (0 : Int) < (2 : Int) ^ w := by positivity
  have h1 := Int.emod_lt_of_pos x hpos
  have h0 := Int.emod_nonneg x (ne_of_gt hpos)
  have : ((x % (2 : Int) ^ w).toNat : Int) < ((2 ^ w : Nat) : Int) := by
    rw [Int.toNat_of_nonneg h0]; push_cast; exact h1
  exact_mod_cast this

theorem toSigned_toUnsigned (w : Nat) (hw : 1 ≤ w) (x : Int) (h : Fits w x) :
    toSigned w (toUnsigned w x) = x := by
  obtain ⟨hlo, hhi⟩ := h
  have hN : (2 : Nat) ^ w = 2 * 2 ^ (w - 1) := two_pow_pred w hw
  have hZ : (2 : Int) ^ w = 2 * (2 : Int) ^ (w - 1) := by exact_mod_cast hN
  have hPpos : (0 : Int) < (2 : Int) ^ (w - 1) := by positivity
  have hcast : (((2 : Nat) ^ (w - 1) : Nat) : Int) = (2 : Int) ^ (w - 1) := by push_cast; rfl
  unfold toSigned toUnsigned
  by_cases hx : 0 ≤ x
  · have hmod : x % (2 : Int) ^ w = x := Int.emod_eq_of_lt hx (by rw [hZ]; omega)
    rw [hmod]
    have hlt : x.toNat < 2 ^ (w - 1) := by
      have : (x.toNat : Int) < ((2 ^ (w - 1) : Nat) : Int) := by
        rw [Int.toNat_of_nonneg hx, hcast]; exact hhi
      exact_mod_cast this
    rw [if_pos hlt, Int.toNat_of_nonneg hx]
  · have hx' : x < 0 := not_le.mp hx
    have hmod : x % (2 : Int) ^ w = x + (2 : Int) ^ w := by
      rw [← Int.add_emod_self]
      exact Int.emod_eq_of_lt (by rw [hZ]; omega) (by omega)
    rw [hmod]
    have hnn : 0 ≤ x + (2 : Int) ^ w := by rw [hZ]; omega
    have hge : ¬ (x + (2 : Int) ^ w).toNat < 2 ^ (w - 1) := by
      intro hlt
      have : ((x + (2 : Int) ^ w).toNat : Int) < ((2 ^ (w - 1) : Nat) : Int) := by
        exact_mod_cast hlt
      rw [Int.toNat_of_nonneg hnn, hcast, hZ] at this
      omega
    rw [if_neg hge, Int.toNat_of_nonneg hnn]
    ring

theorem length_packSamples (w : Nat) (xs : List Int) :
    (packSamples w xs).length = payloadBytes w xs.length :=
  length_toBytes _ _

theorem unpackSamples_packSamples (w : Nat) (hw : 1 ≤ w) (xs : List Int)
    (h : ∀ x ∈ xs, Fits w x) :
    unpackSamples w xs.length (packSamples w xs) = xs := by
  have hdig : ∀ v ∈ xs.map (toUnsigned w), v < 2 ^ w := by
    intro v hv
    obtain ⟨x, _, rfl⟩ := List.mem_map.mp hv
    exact toUnsigned_lt w x
  have hlt : packLE (2 ^ w) (xs.map (toUnsigned w)) < 256 ^ payloadBytes w xs.length := by
    have h1 := packLE_lt (2 ^ w) _ hdig
    rw [List.length_map] at h1
    refine lt_of_lt_of_le h1 ?_
    rw [← pow_mul, show (256 : Nat) = 2 ^ 8 from rfl, ← pow_mul]
    apply Nat.pow_le_pow_right (by decide)
    unfold payloadBytes
    omega
  unfold unpackSamples packSamples
  rw [fromBytes_toBytes _ _ hlt]
  have hlen : xs.length = (xs.map (toUnsigned w)).length := by simp
  rw [hlen, unpackLE_packLE _ (by positivity) _ hdig, List.map_map]
  calc List.map (toSigned w ∘ toUnsigned w) xs = List.map id xs := by
        apply List.map_congr_left
        intro x hx
        exact toSigned_toUnsigned w hw x (h x hx)
    _ = xs := List.map_id xs

end Hlac

namespace Hlac

theorem widthFor_bounds (xs : List Int) : 1 ≤ widthFor xs ∧ widthFor xs ≤ maxBitWidth := by
  unfold widthFor
  cases h : (List.range maxBitWidth).find?
      (fun i => xs.all (fun x => decide (Fits (i + 1) x))) with
  | none => simp [maxBitWidth]
  | some i =>
    have hi := List.mem_range.mp (List.mem_of_find?_eq_some h)
    simp only
    omega

theorem widthFor_fits (xs : List Int) (h : ∀ x ∈ xs, Fits maxBitWidth x) :
    ∀ x ∈ xs, Fits (widthFor xs) x := by
  unfold widthFor
  cases hf : (List.range maxBitWidth).find?
      (fun i => xs.all (fun x => decide (Fits (i + 1) x))) with
  | none => simpa using h
  | some i =>
    have hp := List.find?_some hf
    simp only [List.all_eq_true, decide_eq_true_eq] at hp
    simpa using hp

theorem fits_mono (w1 w2 : Nat) (hw : w1 ≤ w2) (x : Int) (h : Fits w1 x) : Fits w2 x := by
  have hle : (2 : Int) ^ (w1 - 1) ≤ (2 : Int) ^ (w2 - 1) :=
    pow_le_pow_right₀ (by norm_num) (by omega)
  obtain ⟨h1, h2⟩ := h
  exact ⟨by omega, by omega⟩

theorem fits_sub (x y : Int) (hx : Fits 16 x) (hy : Fits 16 y) :
    Fits maxBitWidth (x - y) := by
  unfold Fits maxBitWidth at *
  norm_num at *
  omega

theorem zipWith_add_sub (cur prev : List Int) (h : cur.length ≤ prev.length) :
    List.zipWith (fun x y => x + y) (List.zipWith (fun x y => x - y) cur prev) prev = cur := by
  induction cur generalizing prev with
  | nil => simp
  | cons c cs ih =>
    cases prev with
    | nil => simp at h
    | cons p ps =>
      simp only [List.zipWith_cons_cons, List.cons.injEq]
      exact ⟨by ring, ih ps (by simpa using h)⟩

theorem fits_zipWith_sub (cur prev : List Int) (hc : ∀ x ∈ cur, Fits 16 x)
    (hp : ∀ x ∈ prev, Fits 16 x) :
    ∀ x ∈ List.zipWith (fun x y => x - y) cur prev, Fits maxBitWidth x := by
  induction cur generalizing prev with
  | nil => simp
  | cons c cs ih =>
    cases prev with
    | nil => simp
    | cons p ps =>
      intro x hx
      simp only [List.zipWith_cons_cons, List.mem_cons] at hx
      rcases hx with rfl | hx
      · exact fits_sub c p (hc c (List.mem_cons_self _ _)) (hp p (List.mem_cons_self _ _))
      · exact ih ps (fun y hy => hc y (List.mem_cons_of_mem _ hy))
          (fun y hy => hp y (List.mem_cons_of_mem _ hy)) x hx

theorem decodeCycles_encodeCycles (cycleLength : Nat) (hL : 1 ≤ cycleLength) (fuel : Nat)
    (prev rest : List Int) (hfuel : rest.length ≤ fuel)
    (hprev : rest ≠ [] → prev.length = cycleLength)
    (hp : ∀ x ∈ prev, Fits 16 x) (hr : ∀ x ∈ rest, Fits 16 x) :
    decodeCycles cycleLength fuel prev rest.length (encodeCycles cycleLength fuel prev rest)
      = .ok rest := by
  induction fuel generalizing prev rest with
  | zero =>
    have : rest = [] := List.length_eq_zero.mp (by omega)
    subst this
    simp [encodeCycles, decodeCycles]
  | succ fuel ih =>
    by_cases hrest : rest = []
    · subst hrest
      simp [encodeCycles, decodeCycles]
    · have hlen : rest.length ≠ 0 := fun h => hrest (List.length_eq_zero.mp h)
      have hpl := hprev hrest
      have hcur : ∀ x ∈ rest.take cycleLength, Fits 16 x :=
        fun x hx => hr x (List.mem_of_mem_take hx)
      have hdrop : ∀ x ∈ rest.drop cycleLength, Fits 16 x :=
        fun x hx => hr x (List.mem_of_mem_drop hx)
      have hcl : (rest.take cycleLength).length = min cycleLength rest.length :=
        List.length_take _ _
      have hdl : (List.zipWith (fun x y => x - y) (rest.take cycleLength) prev).length
          = min cycleLength rest.length := by
        rw [List.length_zipWith, hcl, hpl]
        omega
      have hw := widthFor_bounds
        (List.zipWith (fun x y => x - y) (rest.take cycleLength) prev)
      have hfit := widthFor_fits _ (fits_zipWith_sub _ _ hcur hp)
      have hrec := ih (rest.take cycleLength) (rest.drop cycleLength)
        (by rw [List.length_drop]; omega)
        (by
          intro hne
          rw [hcl]
          have : (rest.drop cycleLength).length ≠ 0 :=
            fun h => hne (List.length_eq_zero.mp h)
          rw [List.length_drop] at this
          omega)
        hcur hdrop
      have hrem : rest.length - min cycleLength rest.length
          = (rest.drop cycleLength).length := by
        rw [List.length_drop]; omega
      have hsize : (packSamples
            (widthFor (List.zipWith (fun x y => x - y) (rest.take cycleLength) prev))
            (List.zipWith (fun x y => x - y) (rest.take cycleLength) prev)).length
          = payloadBytes
            (widthFor (List.zipWith (fun x y => x - y) (rest.take cycleLength) prev))
            (min cycleLength rest.length) := by
        rw [length_packSamples, hdl]
      have hun := unpackSamples_packSamples _ hw.1 _ hfit
      rw [hdl] at hun
      have hzip := zipWith_add_sub (rest.take cycleLength) prev (by rw [hcl, hpl]; omega)
      simp only [encodeCycles, if_neg hrest, decodeCycles, if_neg hlen]
      rw [if_neg (by omega), if_neg (by rw [List.length_append, hsize]; omega),
        List.take_left' hsize, List.drop_left' hsize, hun, hzip, hrem, hrec]
      simp only [List.take_append_drop]

end Hlac

namespace Hlac

theorem decodeBlock_encodeFixedPCM (bitDepth : Nat) (hd1 : 1 ≤ bitDepth) (hd16 : bitDepth ≤ 16)
    (xs : List Int) (hne : xs ≠ []) (hfit : ∀ x ∈ xs, Fits bitDepth x) :
    decodeBlock bitDepth (encodeFixedPCM bitDepth xs) = .ok xs := by
  have hlen : xs.length ≠ 0 := fun h => hne (List.length_eq_zero.mp h)
  have hguard : ¬ (xs.length = 0 ∨ bitDepth < 1 ∨ maxBitWidth < bitDepth) := by
    unfold maxBitWidth; omega
  simp only [decodeBlock, encodeFixedPCM, if_neg hguard, length_packSamples, if_true]
  rw [unpackSamples_packSamples bitDepth hd1 xs hfit]

theorem zipWith_map_map {α : Type} (f : Int → Int → Int) (g h : α → Int) (xs : List α) :
    List.zipWith f (xs.map g) (xs.map h) = xs.map (fun x => f (g x) (h x)) := by
  induction xs with
  | nil => rfl
  | cons x xs ih => simp [ih]

theorem fits_coarse (bitDepth bitRate : Nat) (hr1 : 1 ≤ bitRate) (hrd : bitRate ≤ bitDepth)
    (x : Int) (h : Fits bitDepth x) :
    Fits bitRate (x / (2 : Int) ^ (bitDepth - bitRate)) := by
  have hpos : (0 : Int) < (2 : Int) ^ (bitDepth - bitRate) := by positivity
  have hsplit : (2 : Int) ^ (bitDepth - 1)
      = (2 : Int) ^ (bitRate - 1) * (2 : Int) ^ (bitDepth - bitRate) := by
    rw [← pow_add]; congr 1; omega
  obtain ⟨h1, h2⟩ := h
  constructor
  · rw [Int.le_ediv_iff_mul_le hpos, neg_mul, ← hsplit]
    exact h1
  · rw [Int.ediv_lt_iff_lt_mul hpos, ← hsplit]
    exact h2

theorem fits_residual (bitDepth bitRate : Nat) (hr1 : 1 ≤ bitRate) (hrd : bitRate ≤ bitDepth)
    (x : Int) : Fits bitDepth (x % (2 : Int) ^ (bitDepth - bitRate)) := by
  have hpos : (0 : Int) < (2 : Int) ^ (bitDepth - bitRate) := by positivity
  have hle : (2 : Int) ^ (bitDepth - bitRate) ≤ (2 : Int) ^ (bitDepth - 1) :=
    pow_le_pow_right₀ (by norm_num) (by omega)
  have hP : (0 : Int) < (2 : Int) ^ (bitDepth - 1) := by positivity
  have h0 := Int.emod_nonneg x (ne_of_gt hpos)
  have h1 := Int.emod_lt_of_pos x hpos
  exact ⟨by omega, by omega⟩

theorem decodeBlock_encodeDiff (bitDepth bitRate : Nat) (hr1 : 1 ≤ bitRate)
    (hrd : bitRate ≤ bitDepth) (hd16 : bitDepth ≤ 16)
    (xs : List Int) (hne : xs ≠ []) (hfit : ∀ x ∈ xs, Fits bitDepth x) :
    decodeBlock bitDepth (encodeDiff bitDepth bitRate xs) = .ok xs := by
  have hlen : xs.length ≠ 0 := fun h => hne (List.length_eq_zero.mp h)
  have hguard : ¬ (xs.length = 0 ∨ bitRate < 1 ∨ maxBitWidth < bitRate) := by
    unfold maxBitWidth; omega
  have hc : ∀ c ∈ xs.map (fun x => x / (2 : Int) ^ (bitDepth - bitRate)), Fits bitRate c := by
    intro c hc
    obtain ⟨x, hx, rfl⟩ := List.mem_map.mp hc
    exact fits_coarse bitDepth bitRate hr1 hrd x (hfit x hx)
  have hres : ∀ c ∈ xs.map (fun x => x % (2 : Int) ^ (bitDepth - bitRate)),
      Fits bitDepth c := by
    intro c hc
    obtain ⟨x, _, rfl⟩ := List.mem_map.mp hc
    exact fits_residual bitDepth bitRate hr1 hrd x
  have hsize : (packSamples bitRate
      (xs.map (fun x => x / (2 : Int) ^ (bitDepth - bitRate)))).length
      = payloadBytes bitRate xs.length := by
    rw [length_packSamples, List.length_map]
  have h1 := unpackSamples_packSamples bitRate hr1 _ hc
  have h2 := unpackSamples_packSamples bitDepth (by omega) _ hres
  rw [List.length_map] at h1 h2
  have hpl : (packSamples bitRate (xs.map (fun x => x / (2 : Int) ^ (bitDepth - bitRate)))
      ++ packSamples bitDepth
        (xs.map (fun x => x % (2 : Int) ^ (bitDepth - bitRate)))).length
      = payloadBytes bitRate xs.length + payloadBytes bitDepth xs.length ∧
        bitRate ≤ bitDepth := by
    refine ⟨?_, hrd⟩
    rw [List.length_append, length_packSamples, length_packSamples, List.length_map,
      List.length_map]
  simp only [decodeBlock, encodeDiff, if_neg hguard, if_pos hpl]
  rw [List.take_left' hsize, List.drop_left' hsize, h1, h2, zipWith_map_map]
  congr 1
  calc List.map (fun x => x / (2 : Int) ^ (bitDepth - bitRate)
          * (2 : Int) ^ (bitDepth - bitRate) + x % (2 : Int) ^ (bitDepth - bitRate)) xs
      = List.map id xs := by
        apply List.map_congr_left
        intro x _
        exact Int.ediv_add_emod' x _
    _ = xs := List.map_id xs

theorem decodeBlock_encodeDelta (bitDepth : Nat) (hd1 : 1 ≤ bitDepth) (hd16 : bitDepth ≤ 16)
    (threshold : Rat) (cycleLength : Nat) (hL : 1 ≤ cycleLength)
    (xs : List Int) (hne : xs ≠ []) (hfit : ∀ x ∈ xs, Fits bitDepth x) :
    decodeBlock bitDepth (encodeDelta bitDepth threshold cycleLength xs) = .ok xs := by
  unfold encodeDelta
  split
  · exact decodeBlock_encodeFixedPCM bitDepth hd1 hd16 xs hne hfit
  · have hlen : xs.length ≠ 0 := fun h => hne (List.length_eq_zero.mp h)
    have hguard : ¬ (xs.length = 0 ∨ bitDepth < 1 ∨ maxBitWidth < bitDepth) := by
      unfold maxBitWidth; omega
    have h16 : ∀ x ∈ xs, Fits 16 x := fun x hx => fits_mono bitDepth 16 hd16 x (hfit x hx)
    have htl : (xs.take cycleLength).length = min cycleLength xs.length :=
      List.length_take _ _
    have hsize : (packSamples bitDepth (xs.take cycleLength)).length
        = payloadBytes bitDepth (min cycleLength xs.length) := by
      rw [length_packSamples, htl]
    have hfirst := unpackSamples_packSamples bitDepth hd1 (xs.take cycleLength)
      (fun x hx => hfit x (List.mem_of_mem_take hx))
    rw [htl] at hfirst
    have hrem : xs.length - min cycleLength xs.length = (xs.drop cycleLength).length := by
      rw [List.length_drop]; omega
    have hcyc := decodeCycles_encodeCycles cycleLength hL xs.length (xs.take cycleLength)
      (xs.drop cycleLength) (by rw [List.length_drop]; omega)
      (by
        intro hne2
        rw [htl]
        have : (xs.drop cycleLength).length ≠ 0 := fun h => hne2 (List.length_eq_zero.mp h)
        rw [List.length_drop] at this
        omega)
      (fun x hx => h16 x (List.mem_of_mem_take hx))
      (fun x hx => h16 x (List.mem_of_mem_drop hx))
    simp only [decodeBlock, deltaPayload, if_neg hguard]
    rw [if_neg (by omega), if_neg (by rw [List.length_append, hsize]; omega),
      List.take_left' hsize, List.drop_left' hsize, hfirst, hrem, hcyc]
    simp only [List.take_append_drop]

end Hlac

namespace Hlac

open HlacTool (AudioSampleBuffer CompressorOptions)

theorem payloadBytes_le (w count : Nat) (hw : w ≤ maxBitWidth) :
    payloadBytes w count ≤ 3 * count := by
  unfold payloadBytes
  have h : w * count ≤ 17 * count := Nat.mul_le_mul_right _ hw
  omega

theorem length_encodeCycles_le (cycleLength fuel : Nat) (prev rest : List Int) :
    (encodeCycles cycleLength fuel prev rest).length ≤ fuel + 3 * rest.length := by
  induction fuel generalizing prev rest with
  | zero => simp [encodeCycles]
  | succ fuel ih =>
    by_cases hrest : rest = []
    · simp [encodeCycles, hrest]
    · simp only [encodeCycles, if_neg hrest, List.length_cons, List.length_append,
        length_packSamples]
      have h1 := ih (rest.take cycleLength) (rest.drop cycleLength)
      have h2 := payloadBytes_le
        (widthFor (List.zipWith (fun x y => x - y) (rest.take cycleLength) prev))
        (List.zipWith (fun x y => x - y) (rest.take cycleLength) prev).length
        (widthFor_bounds _).2
      have h3 : (List.zipWith (fun x y => x - y) (rest.take cycleLength) prev).length
          ≤ min cycleLength rest.length := by
        rw [List.length_zipWith, List.length_take]; omega
      rw [List.length_drop] at h1
      omega

theorem length_deltaPayload_le (bitDepth cycleLength : Nat) (hd : bitDepth ≤ 16)
    (xs : List Int) : (deltaPayload bitDepth cycleLength xs).length ≤ 7 * xs.length := by
  unfold deltaPayload
  rw [List.length_append, length_packSamples, List.length_take]
  have h1 := length_encodeCycles_le cycleLength xs.length (xs.take cycleLength)
    (xs.drop cycleLength)
  have h2 := payloadBytes_le bitDepth (min cycleLength xs.length)
    (by unfold maxBitWidth; omega)
  rw [List.length_drop] at h1
  omega

theorem detect_fold_bounds (bitDepth : Nat) (xs : List Int) (bound : Nat) (l : List Nat)
    (best : Nat) (hb1 : 1 ≤ best) (hb2 : best ≤ bound) (hl : ∀ i ∈ l, i + 1 ≤ bound) :
    1 ≤ l.foldl (fun best i =>
        if (deltaPayload bitDepth (i + 1) xs).length < (deltaPayload bitDepth best xs).length
        then i + 1 else best) best ∧
    l.foldl (fun best i =>
        if (deltaPayload bitDepth (i + 1) xs).length < (deltaPayload bitDepth best xs).length
        then i + 1 else best) best ≤ bound := by
  induction l generalizing best with
  | nil => exact ⟨hb1, hb2⟩
  | cons i l ih =>
    simp only [List.foldl_cons]
    have hi := hl i (List.mem_cons_self _ _)
    have hrest : ∀ j ∈ l, j + 1 ≤ bound := fun j hj => hl j (List.mem_cons_of_mem _ hj)
    split
    · exact ih (i + 1) (by omega) hi hrest
    · exact ih best hb1 hb2 hrest

theorem detectCycleLength_bounds (bitDepth : Nat) (xs : List Int) :
    1 ≤ detectCycleLength bitDepth xs ∧ detectCycleLength bitDepth xs ≤ max 1 xs.length := by
  unfold detectCycleLength
  apply detect_fold_bounds bitDepth xs (max 1 xs.length) (List.range xs.length) 1
    (le_refl 1) (le_max_left _ _)
  intro i hi
  have := List.mem_range.mp hi
  omega

theorem chooseCycleLength_bounds (opts : CompressorOptions) (bitDepth : Nat)
    (st : EncoderState) (hst : st.Valid) (xs : List Int) (hxs : xs.length < 2 ^ 32) :
    1 ≤ chooseCycleLength opts bitDepth st xs ∧
    chooseCycleLength opts bitDepth st xs < 2 ^ 32 := by
  have hdet := detectCycleLength_bounds bitDepth xs
  have hdet2 : detectCycleLength bitDepth xs < 2 ^ 32 := by
    have : max 1 xs.length < 2 ^ 32 := by
      rcases Nat.le_total 1 xs.length with h | h
      · rw [max_eq_right h]; exact hxs
      · rw [max_eq_left h]; norm_num
    omega
  unfold chooseCycleLength
  cases hreuse : opts.reuseFirstCycleLengthForBlock with
  | false => simp only [Bool.false_eq_true, if_false]; exact ⟨hdet.1, hdet2⟩
  | true =>
    simp only [if_true]
    cases hc : st.cycleLength with
    | none => simp only; exact ⟨hdet.1, hdet2⟩
    | some v => simp only; exact hst v hc

theorem encodeBlock_spec (opts : CompressorOptions) (bitDepth : Nat) (hd1 : 1 ≤ bitDepth)
    (hd16 : bitDepth ≤ 16)
    (hrate : opts.useDiffEncodingWithFixedBlocks = true →
      1 ≤ opts.bitRateForWholeBlock.toNat ∧ opts.bitRateForWholeBlock.toNat ≤ bitDepth)
    (st : EncoderState) (hst : st.Valid) (xs : List Int) (hne : xs ≠ [])
    (hlen : xs.length ≤ 2 ^ 24) (hfit : ∀ x ∈ xs, Fits bitDepth x) :
    decodeBlock bitDepth (encodeBlock opts bitDepth st xs) = .ok xs ∧
    (encodeBlock opts bitDepth st xs).Framable := by
  have hxs : xs.length < 2 ^ 32 := lt_of_le_of_lt hlen (by norm_num)
  have hL := chooseCycleLength_bounds opts bitDepth st hst xs hxs
  have hfix : (encodeFixedPCM bitDepth xs).Framable := by
    refine ⟨?_, hxs, by simp [encodeFixedPCM], ?_⟩
    · simp only [encodeFixedPCM]; omega
    · simp only [encodeFixedPCM, length_packSamples]
      have := payloadBytes_le bitDepth xs.length (by unfold maxBitWidth; omega)
      have h24 : (2 : Nat) ^ 24 = 16777216 := by norm_num
      have h32 : (2 : Nat) ^ 32 = 4294967296 := by norm_num
      omega
  unfold encodeBlock
  cases hdelta : opts.useDeltaEncoding with
  | true =>
    simp only [if_true]
    refine ⟨decodeBlock_encodeDelta bitDepth hd1 hd16 _ _ hL.1 xs hne hfit, ?_⟩
    unfold encodeDelta
    split
    · exact hfix
    · refine ⟨by simp only; omega, hxs, hL.2, ?_⟩
      have := length_deltaPayload_le bitDepth (chooseCycleLength opts bitDepth st xs) hd16 xs
      have h24 : (2 : Nat) ^ 24 = 16777216 := by norm_num
      have h32 : (2 : Nat) ^ 32 = 4294967296 := by norm_num
      simp only
      omega
  | false =>
    simp only [Bool.false_eq_true, if_false]
    cases hdiff : opts.useDiffEncodingWithFixedBlocks with
    | true =>
      simp only [if_true]
      obtain ⟨hr1, hrd⟩ := hrate hdiff
      refine ⟨decodeBlock_encodeDiff bitDepth _ hr1 hrd hd16 xs hne hfit, ?_⟩
      refine ⟨by simp only [encodeDiff]; omega, by simpa [encodeDiff] using hxs,
        by simp [encodeDiff], ?_⟩
      simp only [encodeDiff, List.length_append, length_packSamples, List.length_map]
      have h1 := payloadBytes_le opts.bitRateForWholeBlock.toNat xs.length
        (by unfold maxBitWidth; omega)
      have h2 := payloadBytes_le bitDepth xs.length (by unfold maxBitWidth; omega)
      have h24 : (2 : Nat) ^ 24 = 16777216 := by norm_num
      have h32 : (2 : Nat) ^ 32 = 4294967296 := by norm_num
      omega
    | false =>
      simp only [Bool.false_eq_true, if_false]
      exact ⟨decodeBlock_encodeFixedPCM bitDepth hd1 hd16 xs hne hfit, hfix⟩

theorem encodeWindow_valid (opts : CompressorOptions) (bitDepth : Nat)
    (st : EncoderState) (hst : st.Valid) (xs : List Int) (hxs : xs.length < 2 ^ 32) :
    (encodeWindow opts bitDepth st xs).1.Valid := by
  intro v hv
  simp only [encodeWindow] at hv
  split at hv
  · cases hv
    exact chooseCycleLength_bounds opts bitDepth st hst xs hxs
  · exact hst v hv

end Hlac

namespace Hlac

open HlacTool (AudioSampleBuffer CompressorOptions)

theorem takeBytes_append (size : Nat) (field rest : List Nat) (h : field.length = size) :
    takeBytes size (field ++ rest) = .ok (field, rest) := by
  unfold takeBytes
  rw [if_neg (by rw [List.length_append]; omega), List.take_left' h, List.drop_left' h]

theorem readUInt_toBytes (size n : Nat) (rest : List Nat) (h : n < 256 ^ size) :
    readUInt size (toBytes size n ++ rest) = .ok (n, rest) := by
  unfold readUInt
  rw [takeBytes_append size _ rest (length_toBytes size n)]
  simp only [fromBytes_toBytes size n h]

theorem readUInt_one (v : Nat) (rest : List Nat) : readUInt 1 (v :: rest) = .ok (v, rest) := by
  simp [readUInt, takeBytes, fromBytes, packLE]

theorem ofTag_tag (m : BlockMode) : BlockMode.ofTag m.tag = .ok m := by
  cases m <;> rfl

theorem parseBlock_frame (blk : CompressedBlock) (rest : List Nat) (h : blk.Framable) :
    parseBlock (frame blk ++ rest) = .ok (blk, rest) := by
  obtain ⟨_, h2, h3, h4⟩ := h
  have e : frame blk ++ rest = blk.mode.tag :: blk.bitWidth :: (toBytes 4 blk.sampleCount
      ++ (toBytes 4 blk.cycleLength ++ (toBytes 4 blk.payload.length
      ++ (blk.payload ++ rest)))) := by
    simp [frame, List.append_assoc]
  rw [e]
  simp only [parseBlock, readUInt_one, ofTag_tag,
    readUInt_toBytes 4 blk.sampleCount _ (by norm_num; omega),
    readUInt_toBytes 4 blk.cycleLength _ (by norm_num; omega),
    readUInt_toBytes 4 blk.payload.length _ (by norm_num; omega),
    takeBytes_append blk.payload.length blk.payload rest rfl]

theorem frame_ne_nil (blk : CompressedBlock) (rest : List Nat) : frame blk ++ rest ≠ [] := by
  simp [frame]

theorem parseBlocks_frames (blks : List CompressedBlock) (fuel : Nat)
    (hfuel : blks.length ≤ fuel) (h : ∀ blk ∈ blks, blk.Framable) :
    parseBlocks fuel (blks.flatMap frame) = .ok blks := by
  induction blks generalizing fuel with
  | nil => cases fuel <;> simp [parseBlocks]
  | cons blk blks ih =>
    cases fuel with
    | zero => simp at hfuel
    | succ fuel =>
      simp only [List.flatMap_cons, parseBlocks, if_neg (frame_ne_nil blk _),
        parseBlock_frame blk _ (h blk (List.mem_cons_self _ _)),
        ih fuel (by simpa using hfuel) (fun b hb => h b (List.mem_cons_of_mem _ hb))]

theorem length_frame (blk : CompressedBlock) : 1 ≤ (frame blk).length := by
  simp [frame]

theorem length_flatMap_frame (blks : List CompressedBlock) :
    blks.length ≤ (blks.flatMap frame).length := by
  induction blks with
  | nil => simp
  | cons blk blks ih =>
    simp only [List.flatMap_cons, List.length_append, List.length_cons]
    have := length_frame blk
    omega

theorem parseHeader_bytes (h : StreamHeader) (rest : List Nat)
    (hmeta : h.metadata = []) (h1 : h.sampleRate < 2 ^ 32) (h2 : h.numChannels < 2 ^ 16)
    (h3 : h.bitDepth < 2 ^ 16) (h4 : h.dcOffsetFlag < 256) (h5 : h.totalSamples < 2 ^ 64)
    (h6 : h.compressionRatio < 2 ^ 32) :
    parseHeader (h.bytes ++ rest) = .ok (h, rest) := by
  have e : h.bytes ++ rest = magic ++ (toBytes 2 version ++ (toBytes 4 h.sampleRate
      ++ (toBytes 2 h.numChannels ++ (toBytes 2 h.bitDepth ++ (toBytes 1 h.dcOffsetFlag
      ++ (toBytes 4 0 ++ (toBytes 8 h.totalSamples
      ++ (toBytes 4 h.compressionRatio ++ rest)))))))) := by
    simp [StreamHeader.bytes, metadataBytes, hmeta, List.append_assoc]
  rw [e]
  simp only [parseHeader, takeBytes_append 4 magic _ rfl, ne_eq, not_true_eq_false, if_false,
    readUInt_toBytes 2 version _ (by decide),
    readUInt_toBytes 4 h.sampleRate _ (by norm_num; omega),
    readUInt_toBytes 2 h.numChannels _ (by norm_num; omega),
    readUInt_toBytes 2 h.bitDepth _ (by norm_num; omega),
    readUInt_toBytes 1 h.dcOffsetFlag _ (by norm_num; omega),
    readUInt_toBytes 4 0 _ (by norm_num), readPairs,
    readUInt_toBytes 8 h.totalSamples _ (by norm_num; omega),
    readUInt_toBytes 4 h.compressionRatio _ (by norm_num; omega)]
  rw [← hmeta]

theorem decodeBlocks_append (bitDepth : Nat) (xs ys : List CompressedBlock)
    (a b : List Int) (hx : decodeBlocks bitDepth xs = .ok a)
    (hy : decodeBlocks bitDepth ys = .ok b) :
    decodeBlocks bitDepth (xs ++ ys) = .ok (a ++ b) := by
  induction xs generalizing a with
  | nil =>
    simp only [decodeBlocks, Except.ok.injEq] at hx
    subst hx
    simpa using hy
  | cons blk xs ih =>
    simp only [decodeBlocks] at hx
    cases hb : decodeBlock bitDepth blk with
    | error e => rw [hb] at hx; cases hx
    | ok first =>
      rw [hb] at hx
      cases hr : decodeBlocks bitDepth xs with
      | error e => rw [hr] at hx; cases hx
      | ok more =>
        rw [hr] at hx
        simp only [Except.ok.injEq] at hx
        subst hx
        have hrec := ih more hr
        show decodeBlocks bitDepth (blk :: (xs ++ ys)) = _
        simp only [decodeBlocks, hb, hrec, List.append_assoc]

theorem encodeSamples_spec (opts : CompressorOptions) (bitDepth : Nat) (hd1 : 1 ≤ bitDepth)
    (hd16 : bitDepth ≤ 16)
    (hrate : opts.useDiffEncodingWithFixedBlocks = true →
      1 ≤ opts.bitRateForWholeBlock.toNat ∧ opts.bitRateForWholeBlock.toNat ≤ bitDepth)
    (width : Nat) (hw1 : 1 ≤ width) (hw : width ≤ 2 ^ 24) (fuel : Nat)
    (st : EncoderState) (hst : st.Valid) (xs : List Int) (hfuel : xs.length ≤ fuel)
    (hfit : ∀ x ∈ xs, Fits bitDepth x) :
    decodeBlocks bitDepth (encodeSamples opts bitDepth width fuel st xs).2 = .ok xs ∧
    (∀ blk ∈ (encodeSamples opts bitDepth width fuel st xs).2, blk.Framable) ∧
    (encodeSamples opts bitDepth width fuel st xs).1.Valid := by
  induction fuel generalizing st xs with
  | zero =>
    have : xs = [] := List.length_eq_zero.mp (by omega)
    subst this
    exact ⟨rfl, by simp [encodeSamples], hst⟩
  | succ fuel ih =>
    by_cases hxs : xs = []
    · subst hxs
      exact ⟨by simp [encodeSamples, decodeBlocks], by simp [encodeSamples],
        by simpa [encodeSamples] using hst⟩
    · have hlen : xs.length ≠ 0 := fun h => hxs (List.length_eq_zero.mp h)
      have htl : (xs.take width).length = min width xs.length := List.length_take _ _
      have htne : xs.take width ≠ [] := by
        intro h
        rw [h, List.length_nil] at htl
        omega
      have htle : (xs.take width).length ≤ 2 ^ 24 := by rw [htl]; omega
      have hblk := encodeBlock_spec opts bitDepth hd1 hd16 hrate st hst (xs.take width) htne
        htle (fun x hx => hfit x (List.mem_of_mem_take hx))
      have hst1 := encodeWindow_valid opts bitDepth st hst (xs.take width)
        (lt_of_le_of_lt htle (by norm_num))
      obtain ⟨i1, i2, i3⟩ := ih (encodeWindow opts bitDepth st (xs.take width)).1 hst1
        (xs.drop width) (by rw [List.length_drop]; omega)
        (fun x hx => hfit x (List.mem_of_mem_drop hx))
      simp only [encodeSamples, if_neg hxs]
      refine ⟨?_, ?_, i3⟩
      · have hb : decodeBlock bitDepth (encodeWindow opts bitDepth st (xs.take width)).2
            = .ok (xs.take width) := hblk.1
        simp only [decodeBlocks, hb, i1, List.take_append_drop]
      · intro blk hmem
        rcases List.mem_cons.mp hmem with rfl | hmem
        · exact hblk.2
        · exact i2 blk hmem

theorem encodeChannels_spec (opts : CompressorOptions) (bitDepth : Nat) (hd1 : 1 ≤ bitDepth)
    (hd16 : bitDepth ≤ 16)
    (hrate : opts.useDiffEncodingWithFixedBlocks = true →
      1 ≤ opts.bitRateForWholeBlock.toNat ∧ opts.bitRateForWholeBlock.toNat ≤ bitDepth)
    (width : Nat) (hw1 : 1 ≤ width) (hw : width ≤ 2 ^ 24)
    (st : EncoderState) (hst : st.Valid) (cs : List (List Int))
    (hfit : ∀ c ∈ cs, ∀ x ∈ c, Fits bitDepth x) :
    decodeBlocks bitDepth (encodeChannels opts bitDepth width st cs).2 = .ok cs.flatten ∧
    (∀ blk ∈ (encodeChannels opts bitDepth width st cs).2, blk.Framable) := by
  induction cs generalizing st with
  | nil => exact ⟨rfl, by simp [encodeChannels]⟩
  | cons c cs ih =>
    obtain ⟨j1, j2, j3⟩ := encodeSamples_spec opts bitDepth hd1 hd16 hrate width hw1 hw
      c.length st hst c (le_refl _) (hfit c (List.mem_cons_self _ _))
    obtain ⟨i1, i2⟩ := ih (encodeSamples opts bitDepth width c.length st c).1 j3
      (fun c1 hc1 => hfit c1 (List.mem_cons_of_mem _ hc1))
    simp only [encodeChannels, List.flatten_cons]
    refine ⟨decodeBlocks_append bitDepth _ _ _ _ j1 i1, ?_⟩
    intro blk hmem
    rcases List.mem_append.mp hmem with hmem | hmem
    · exact j2 blk hmem
    · exact i2 blk hmem

theorem length_flatten_uniform (cs : List (List Int)) (n : Nat)
    (h : ∀ c ∈ cs, c.length = n) : cs.flatten.length = cs.length * n := by
  induction cs with
  | nil => simp
  | cons c cs ih =>
    simp only [List.flatten_cons, List.length_append, List.length_cons,
      h c (List.mem_cons_self _ _), ih (fun c1 hc1 => h c1 (List.mem_cons_of_mem _ hc1))]
    ring

theorem channels_of_flatten (cs : List (List Int)) (n : Nat)
    (h : ∀ c ∈ cs, c.length = n) :
    (List.range cs.length).map (fun i => (cs.flatten.drop (i * n)).take n) = cs := by
  induction cs with
  | nil => rfl
  | cons c cs ih =>
    have hc : c.length = n := h c (List.mem_cons_self _ _)
    have hrest := ih (fun c1 hc1 => h c1 (List.mem_cons_of_mem _ hc1))
    rw [List.length_cons, List.range_succ_eq_map, List.map_cons, List.map_map]
    simp only [List.flatten_cons, Nat.zero_mul, List.drop_zero, List.take_left' hc]
    congr 1
    conv_rhs => rw [← hrest]
    apply List.map_congr_left
    intro i _
    simp only [Function.comp]
    have hidx : i.succ * n = c.length + i * n := by rw [hc, Nat.succ_mul]; omega
    rw [hidx, List.drop_append]

end Hlac

namespace Hlac

open HlacTool (AudioSampleBuffer CompressorOptions)

theorem valid_initial : EncoderState.initial.Valid := by
  intro v hv
  simp [EncoderState.initial] at hv

theorem blockWidth_pos (opts : CompressorOptions) : 1 ≤ blockWidth opts := by
  unfold blockWidth COMPRESSION_BLOCK_SIZE
  split <;> omega

theorem read_write (fmt : StreamFormat) (opts : CompressorOptions) (b : AudioSampleBuffer)
    (startSample count : Nat)
    (hmodes : ¬ (opts.useDeltaEncoding = true ∧ opts.useDiffEncodingWithFixedBlocks = true))
    (hdepth : 1 ≤ fmt.bitDepth ∧ fmt.bitDepth ≤ 16)
    (hrate : opts.useDiffEncodingWithFixedBlocks = true →
      1 ≤ opts.bitRateForWholeBlock ∧ opts.bitRateForWholeBlock ≤ (fmt.bitDepth : Int))
    (hdc : opts.removeDcOffset = false)
    (hwidth : blockWidth opts ≤ 2 ^ 24)
    (hmeta : fmt.metadata = [])
    (hch : b.channels.length = fmt.numChannels) (hch16 : b.channels.length < 2 ^ 16)
    (hsize : b.size < 2 ^ 64)
    (hall : ∀ c ∈ b.channels, c.length = b.size ∧ ∀ x ∈ c, Fits fmt.bitDepth x) :
    ∃ stream, writeFromAudioSampleBuffer fmt opts b = .ok stream ∧
      read stream startSample count =
        .ok { size := min count (b.size - startSample)
              channels := b.channels.map (fun c => (c.drop startSample).take count) } := by
  have hrate' : opts.useDiffEncodingWithFixedBlocks = true →
      1 ≤ opts.bitRateForWholeBlock.toNat ∧ opts.bitRateForWholeBlock.toNat ≤ fmt.bitDepth := by
    intro h
    obtain ⟨h1, h2⟩ := hrate h
    omega
  have hlens : ∀ c ∈ b.channels, c.length = b.size := fun c hc => (hall c hc).1
  obtain ⟨hdec, hframable⟩ := encodeChannels_spec opts fmt.bitDepth hdepth.1 hdepth.2 hrate'
    (blockWidth opts) (blockWidth_pos opts) hwidth EncoderState.initial valid_initial
    b.channels (fun c hc => (hall c hc).2)
  refine ⟨(writtenHeader fmt opts b).bytes ++ (encodeBuffer fmt opts b).2.flatMap frame, ?_, ?_⟩
  · unfold writeFromAudioSampleBuffer
    rw [if_neg hmodes, if_neg (by omega), if_neg (by
      rintro ⟨h1, h2⟩
      have := hrate h1
      omega), hdc]
    simp only [Bool.false_eq_true, if_false]
    rw [if_neg]
    rintro (h | ⟨c, hc, hne⟩)
    · exact h hch
    · exact hne (hlens c hc)
  · have hhdr := parseHeader_bytes (writtenHeader fmt opts b)
      ((encodeBuffer fmt opts b).2.flatMap frame) hmeta
      (Nat.mod_lt _ (by norm_num))
      (by simp only [writtenHeader]; omega)
      (by simp only [writtenHeader]; have := hdepth.2; norm_num; omega)
      (by simp [writtenHeader]) hsize (Nat.mod_lt _ (by norm_num))
    have hblocks := parseBlocks_frames (encodeBuffer fmt opts b).2
      ((encodeBuffer fmt opts b).2.flatMap frame).length
      (length_flatMap_frame _) hframable
    have hflat : b.channels.flatten.length = fmt.numChannels * b.size := by
      rw [length_flatten_uniform b.channels b.size hlens, hch]
    have hsplit := channels_of_flatten b.channels b.size hlens
    have hbd : (writtenHeader fmt opts b).bitDepth = fmt.bitDepth := rfl
    have hnc : (writtenHeader fmt opts b).numChannels = fmt.numChannels := rfl
    have hts : (writtenHeader fmt opts b).totalSamples = b.size := rfl
    have hfl : (writtenHeader fmt opts b).dcOffsetFlag = 0 := rfl
    have hguard : ¬ ((writtenHeader fmt opts b).dcOffsetFlag ≠ 0 ∨
        (writtenHeader fmt opts b).bitDepth < 1 ∨ 16 < (writtenHeader fmt opts b).bitDepth) := by
      rw [hfl, hbd]; omega
    have hspc : samplesPerChannel (writtenHeader fmt opts b) b.channels.flatten.length
        = .ok b.size := by
      unfold samplesPerChannel
      rw [hnc, hts, if_pos hflat]
    have hdec' : decodeBlocks (writtenHeader fmt opts b).bitDepth (encodeBuffer fmt opts b).2
        = .ok b.channels.flatten := hdec
    unfold read
    simp only [hhdr, if_neg hguard, hblocks, hdec', hspc, hnc]
    congr 2
    rw [← hch]
    conv_rhs => rw [← hsplit]
    rw [List.map_map]
    rfl

theorem fixedBlockWidth_tool (defaults : CompressorOptions) (m : HlacTool.Mode) :
    blockWidth (HlacTool.optionsOf defaults m) ≤ 2 ^ 24 := by
  cases m <;>
    simp [HlacTool.optionsOf, HlacTool.wholeBlock, HlacTool.delta, HlacTool.diff, blockWidth,
      COMPRESSION_BLOCK_SIZE]

/-- C1: for each of the three option sets of the tool and every supported buffer `b`
(equally long channels of 16-bit samples, of any length, 0 and 1 included), writing `b` with
the format the tool opens its writer with yields a stream, and reading that stream back from
sample 0 for at least `b.getNumSamples()` samples yields a buffer with the channels of `b`
whose first `b.getNumSamples()` samples per channel are those of `b`. -/
theorem tool_round_trip (f32 : Rat → Nat) (defaults : CompressorOptions)
    (m : HlacTool.Mode) (b : AudioSampleBuffer) (padded : Nat)
    (hb : Supported b) (hp : b.getNumSamples ≤ padded) :
    ∃ stream,
      writeFromAudioSampleBuffer (toolFormat f32 b) (HlacTool.optionsOf defaults m) b
        = .ok stream ∧
      ∃ b2, read stream 0 padded = .ok b2 ∧
        b2.getNumChannels = b.getNumChannels ∧
        b2.channels.map (List.take b.getNumSamples) = b.channels := by
  obtain ⟨hch, hsize, hall⟩ := hb
  obtain ⟨stream, hw, hr⟩ := read_write (toolFormat f32 b) (HlacTool.optionsOf defaults m) b
    0 padded
    (by cases m <;> simp [HlacTool.optionsOf, HlacTool.wholeBlock, HlacTool.delta,
      HlacTool.diff])
    (by simp [toolFormat])
    (by cases m <;> simp [HlacTool.optionsOf, HlacTool.wholeBlock, HlacTool.delta,
      HlacTool.diff, toolFormat])
    (by cases m <;> simp [HlacTool.optionsOf, HlacTool.wholeBlock, HlacTool.delta,
      HlacTool.diff])
    (fixedBlockWidth_tool defaults m) rfl rfl hch hsize hall
  refine ⟨stream, hw, _, hr, ?_, ?_⟩
  · simp [AudioSampleBuffer.getNumChannels]
  · simp only [List.map_map, AudioSampleBuffer.getNumSamples]
    conv_rhs => rw [← List.map_id b.channels]
    apply List.map_congr_left
    intro c hc
    have hlen : c.length = b.size := (hall c hc).1
    simp only [Function.comp, List.drop_zero, id]
    have hp1 : b.size ≤ padded := hp
    have h1 : List.take padded c = c := List.take_of_length_le (by omega)
    have h2 : List.take b.size c = c := List.take_of_length_le (by omega)
    rw [h1, h2]

/-- Witness for C1: a two-channel buffer of one sample, through the delta pass. -/
theorem tool_round_trip_witness :
    ∃ stream,
      writeFromAudioSampleBuffer (toolFormat (fun _ => 0) ⟨1, [[5], [-3]]⟩)
        (HlacTool.optionsOf ⟨-1, true, true, false, true, 1 / 5, 6⟩ .delta) ⟨1, [[5], [-3]]⟩
        = .ok stream ∧
      ∃ b2, read stream 0 4096 = .ok b2 ∧
        b2.getNumChannels = 2 ∧
        b2.channels.map (List.take 1) = [[5], [-3]] :=
  tool_round_trip (fun _ => 0) ⟨-1, true, true, false, true, 1 / 5, 6⟩ .delta
    ⟨1, [[5], [-3]]⟩ 4096
    (by unfold Supported Fits; simp)
    (by decide)

end Hlac

namespace DspFactory

theorem find_first (l : List Factory) (name : String)
    (hex : ∃ f ∈ l, f.getId = name) :
    ∃ pre f post, l = pre ++ f :: post ∧ (∀ g ∈ pre, g.getId ≠ name) ∧ f.getId = name ∧
      l.find? (fun g => g.getId == name) = some f := by
  cases hfind : l.find? (fun g => g.getId == name) with
  | none =>
    obtain ⟨f, hf, hid⟩ := hex
    have := (List.find?_eq_none.mp hfind) f hf
    simp [hid] at this
  | some f =>
    obtain ⟨hp, pre, post, hl, hpre⟩ := List.find?_eq_some.mp hfind
    refine ⟨pre, f, post, hl, ?_, by simpa using hp, rfl⟩
    intro g hg
    simpa using hpre g hg

/-- C11: when the name is the id of a registered static factory, `getFactory` returns the
first static factory with that id, whatever the loaded plugins hold; the result is the same
for every platform and password (no dynamic library is consulted), and the handler, with
its list of loaded plugins, is returned unchanged. -/
theorem getFactory_static_first (h : Handler) (name : String)
    (hex : ∃ f ∈ h.staticFactories, f.getId = name) :
    ∃ pre f post, h.staticFactories = pre ++ f :: post ∧ (∀ g ∈ pre, g.getId ≠ name) ∧
      f.getId = name ∧
      ∀ (p : Platform) (password : String), h.getFactory p name password = .ok (some f, h) := by
  obtain ⟨pre, f, post, hl, hpre, hid, hfind⟩ := find_first h.staticFactories name hex
  refine ⟨pre, f, post, hl, hpre, hid, ?_⟩
  intro p password
  simp only [Handler.getFactory, hfind]

/-- Witness for C11: the static factory "core" is found although a loaded plugin has the
same id. -/
theorem getFactory_static_first_witness :
    ∃ pre f post,
      ([.staticFactory "extra", .staticFactory "core"] : List Factory) = pre ++ f :: post ∧
      (∀ g ∈ pre, g.getId ≠ "core") ∧ f.getId = "core" ∧
      ∀ (p : Platform) (password : String),
        Handler.getFactory p
          { staticFactories := [.staticFactory "extra", .staticFactory "core"]
            loadedPlugins := [.dynamicFactory ⟨"core", "core", ⟨none, true⟩⟩] }
          "core" password =
        .ok (some f,
          { staticFactories := [.staticFactory "extra", .staticFactory "core"]
            loadedPlugins := [.dynamicFactory ⟨"core", "core", ⟨none, true⟩⟩] }) :=
  getFactory_static_first
    { staticFactories := [.staticFactory "extra", .staticFactory "core"]
      loadedPlugins := [.dynamicFactory ⟨"core", "core", ⟨none, true⟩⟩] }
    "core" ⟨.staticFactory "core", by simp, rfl⟩

/-- C12: when the name matches no static factory but is the id of a loaded plugin,
`getFactory` returns the first loaded plugin with that id; the result is the same for every
platform and password (no dynamic library is consulted) and the handler is returned
unchanged, so a second call returns the same factory and the list has not grown. -/
theorem getFactory_reuses_loaded (h : Handler) (name : String)
    (hstatic : ∀ f ∈ h.staticFactories, f.getId ≠ name)
    (hex : ∃ f ∈ h.loadedPlugins, f.getId = name) :
    ∃ pre f post, h.loadedPlugins = pre ++ f :: post ∧ (∀ g ∈ pre, g.getId ≠ name) ∧
      f.getId = name ∧
      (∀ (p : Platform) (password : String),
        h.getFactory p name password = .ok (some f, h)) ∧
      ∀ (p1 p2 : Platform) (password1 password2 : String),
        ∃ h1, h.getFactory p1 name password1 = .ok (some f, h1) ∧
          h1.getFactory p2 name password2 = .ok (some f, h1) ∧
          h1.loadedPlugins = h.loadedPlugins := by
  obtain ⟨pre, f, post, hl, hpre, hid, hfind⟩ := find_first h.loadedPlugins name hex
  have h1 : h.staticFactories.find? (fun f => f.getId == name) = none := by
    rw [List.find?_eq_none]
    intro g hg
    simpa using hstatic g hg
  have hcall : ∀ (p : Platform) (password : String),
      h.getFactory p name password = .ok (some f, h) := by
    intro p password
    simp only [Handler.getFactory, h1, hfind]
  refine ⟨pre, f, post, hl, hpre, hid, hcall, ?_⟩
  intro p1 p2 password1 password2
  exact ⟨h, hcall p1 password1, hcall p2 password2, rfl⟩

/-- Witness for C12: the loaded plugin "synth" is returned again. -/
theorem getFactory_reuses_loaded_witness :
    ∃ pre f post,
      ([.dynamicFactory ⟨"synth", "synth", ⟨none, true⟩⟩] : List Factory)
        = pre ++ f :: post ∧
      (∀ g ∈ pre, g.getId ≠ "synth") ∧ f.getId = "synth" ∧
      (∀ (p : Platform) (password : String),
        Handler.getFactory p
          { staticFactories := [.staticFactory "core"]
            loadedPlugins := [.dynamicFactory ⟨"synth", "synth", ⟨none, true⟩⟩] }
          "synth" password =
        .ok (some f,
          { staticFactories := [.staticFactory "core"]
            loadedPlugins := [.dynamicFactory ⟨"synth", "synth", ⟨none, true⟩⟩] })) ∧
      ∀ (p1 p2 : Platform) (password1 password2 : String),
        ∃ h1, Handler.getFactory p1
            { staticFactories := [.staticFactory "core"]
              loadedPlugins := [.dynamicFactory ⟨"synth", "synth", ⟨none, true⟩⟩] }
            "synth" password1 = .ok (some f, h1) ∧
          h1.getFactory p2 "synth" password2 = .ok (some f, h1) ∧
          h1.loadedPlugins = [.dynamicFactory ⟨"synth", "synth", ⟨none, true⟩⟩] :=
  getFactory_reuses_loaded
    { staticFactories := [.staticFactory "core"]
      loadedPlugins := [.dynamicFactory ⟨"synth", "synth", ⟨none, true⟩⟩] }
    "synth" (by simp [Factory.getId])
    ⟨.dynamicFactory ⟨"synth", "synth", ⟨none, true⟩⟩, by simp, rfl⟩

end DspFactory

namespace DspInstance

/-- C16 (what the code does): five buffers of 8 samples each pass the checks, and the module
is called with a channel count of 5 although only four entries of `sampleData` were filled;
an empty array passes the checks too, and the module is called with a sample count of
-1. -/
theorem processBlock_passes_unprepared_data :
    processBlock true (bufferArray [⟨0, 8⟩, ⟨1, 8⟩, ⟨2, 8⟩, ⟨3, 8⟩, ⟨4, 8⟩]) =
      .ok (some { sampleData := [⟨0, 8⟩, ⟨1, 8⟩, ⟨2, 8⟩, ⟨3, 8⟩],
                  numChannels := 5, numSamples := 8 }) ∧
    processBlock true (bufferArray []) =
      .ok (some { sampleData := [], numChannels := 0, numSamples := -1 }) :=
  ⟨rfl, rfl⟩

end DspInstance

namespace CallbackCollection

/-- C14: `getBestCallback` picks the first valid callback in the order Frame, Sample, Channel
for `FrameProcessing` and Channel, Frame, Sample otherwise; it returns `Inactive` exactly
when none of the three is valid, and a callback type it returns has a valid function.  A
freshly constructed collection reports `Inactive` for both process types, and
`setupCallbacks` stores what `getBestCallback` returns. -/
theorem getBestCallback_priority :
    (∀ c : Collection, getBestCallback c .FrameProcessing =
      if c.frame.isValid then .Frame else if c.sample.isValid then .Sample
      else if c.channel.isValid then .Channel else .Inactive) ∧
    (∀ (c : Collection) (pt : ProcessType), pt ≠ .FrameProcessing →
      getBestCallback c pt =
        if c.channel.isValid then .Channel else if c.frame.isValid then .Frame
        else if c.sample.isValid then .Sample else .Inactive) ∧
    (∀ (c : Collection) (pt : ProcessType), getBestCallback c pt = .Inactive ↔
      (c.channel.isValid = false ∧ c.frame.isValid = false ∧ c.sample.isValid = false)) ∧
    (∀ (c : Collection) (pt : ProcessType), getBestCallback c pt ≠ .Inactive →
      (c.callback (getBestCallback c pt)).isValid = true) ∧
    (∀ pt : ProcessType, getBestCallback Collection.new pt = .Inactive ∧
      Collection.new.bestCallback pt = .Inactive ∧
      getBestCallbackName Collection.new pt = "Inactive") ∧
    (∀ (c : Collection) (sample frame channel : Lookup) (pt : ProcessType),
      (setupCallbacks c sample frame channel).bestCallback pt =
        getBestCallback (setupCallbacks c sample frame channel) pt) := by
  refine ⟨fun c => rfl, ?_, ?_, ?_, ?_, ?_⟩
  · intro c pt hpt
    cases pt with
    | FrameProcessing => exact absurd rfl hpt
    | BlockProcessing => rfl
  · rintro ⟨⟨a⟩, ⟨b⟩, ⟨d⟩, _, _⟩ pt
    cases pt <;> cases a <;> cases b <;> cases d <;> simp [getBestCallback]
  · rintro ⟨⟨a⟩, ⟨b⟩, ⟨d⟩, _, _⟩ pt
    cases pt <;> cases a <;> cases b <;> cases d <;>
      simp [getBestCallback, Collection.callback]
  · intro pt
    cases pt <;> exact ⟨rfl, rfl, rfl⟩
  · intro c sample frame channel pt
    cases pt <;> rfl

end CallbackCollection

namespace SpanType

/-- C15 (what the code does): for a span of `n > 0` elements and a negative input, the init
value of the wrapped index lies in `(-n, 0]`: it is negative unless the input is a multiple
of `n`, so it is no valid index; the base `getInitValue` returns its input. -/
theorem wrapped_getInitValue_negative (n input : Int) (hn : 0 < n) (hneg : input < 0) :
    -n < Wrapped.getInitValue n input ∧ Wrapped.getInitValue n input ≤ 0 ∧
    (¬ n ∣ input → Wrapped.getInitValue n input < 0) ∧
    IndexBase.getInitValue input = input := by
  obtain ⟨k, rfl⟩ : ∃ k : Nat, n = (k : Int) := ⟨n.toNat, (Int.toNat_of_nonneg hn.le).symm⟩
  obtain ⟨m, rfl⟩ : ∃ m : Nat, input = Int.negSucc m := by
    cases input with
    | ofNat a => exact absurd hneg (by simp)
    | negSucc m => exact ⟨m, rfl⟩
  have h1 : Int.tmod (Int.negSucc m) (k : Int) = -(((m + 1) % k : Nat) : Int) := rfl
  have h2 : (m + 1) % k < k := Nat.mod_lt _ (by exact_mod_cast hn)
  unfold Wrapped.getInitValue
  refine ⟨by omega, by omega, ?_, rfl⟩
  intro hdvd
  have hne : Int.tmod (Int.negSucc m) (k : Int) ≠ 0 := by
    intro h0
    exact hdvd (Int.dvd_of_tmod_eq_zero h0)
  omega

/-- Witness for C15: a span of 4 elements and the input -1, whose init value is -1. -/
theorem wrapped_getInitValue_negative_witness :
    Wrapped.getInitValue 4 (-1) = -1 ∧ Wrapped.getInitValue 4 (-1) < 0 :=
  ⟨by decide,
    (wrapped_getInitValue_negative 4 (-1) (by decide) (by decide)).2.2.1 (by decide)⟩

end SpanType

namespace HlacTool

theorem loopBody_succeeds_eq {D : Type} (env : Env D) (s : State D) (f : File)
    (hs : skipped f = false) (hok : Succeeds env f) :
    loopBody env s f = .next (fileStep env s f) := by
  obtain ⟨⟨b, speed, hload⟩, hw⟩ := hok
  unfold skipped at hs
  have hb : loadedBuffer env f = b := by simp only [loadedBuffer, hload]
  have hsp : loadedSpeed env f = speed := by simp only [loadedSpeed, hload]
  simp only [loopBody, hs, hload, hw, flacPass, blockPass, deltaPass, diffPass,
    Flow.andThen, useBlock, useDelta, useDiff, checkWithFlac, if_true, Bool.false_eq_true,
    if_false, reduceCtorEq]
  congr 1
  simp [fileStep, State.emit, fileEvents, fileHeader, passEvents, passCalls, passLabel, hb,
    hsp]

theorem loop_complete_eq {D : Type} (env : Env D) (files : List File) (s : State D)
    (h : ∀ f ∈ files, skipped f = false → Succeeds env f) :
    loop env s files = .next ((checkedFiles files).foldl (fileStep env) s) := by
  induction files generalizing s with
  | nil => rfl
  | cons f rest ih =>
    have hrest : ∀ g ∈ rest, skipped g = false → Succeeds env g :=
      fun g hg => h g (List.mem_cons_of_mem _ hg)
    cases hf : skipped f with
    | true =>
      have hc : checkedFiles (f :: rest) = checkedFiles rest := by simp [checkedFiles, hf]
      simp only [loop, loopBody_skipped env s f hf, Flow.andThen, hc, ih s hrest]
    | false =>
      have hc : checkedFiles (f :: rest) = f :: checkedFiles rest := by
        simp [checkedFiles, hf]
      simp only [loop, loopBody_succeeds_eq env s f hf (h f (List.mem_cons_self _ _) hf),
        Flow.andThen, hc, List.foldl_cons, ih _ hrest]

theorem foldl_fileStep {D : Type} (env : Env D) (files : List File) (s : State D) :
    files.foldl (fileStep env) s =
      { events := s.events ++ files.flatMap (fileEvents env)
        blockRatio := (files.map (env.getCompressionRatioForLastFile .block)).foldl
          env.ops.add s.blockRatio
        deltaRatio := (files.map (env.getCompressionRatioForLastFile .delta)).foldl
          env.ops.add s.deltaRatio
        diffRatio := (files.map (env.getCompressionRatioForLastFile .diff)).foldl
          env.ops.add s.diffRatio
        flacRatio := (files.map (fun f => (env.getFLACRatio f).1)).foldl
          env.ops.add s.flacRatio
        blockSpeed := (files.map (env.getDecompressionPerformanceForLastFile .block)).foldl
          env.ops.add s.blockSpeed
        flacSpeed := (files.map (fun f => (env.getFLACRatio f).2)).foldl
          env.ops.add s.flacSpeed
        pcmSpeed := (files.map (loadedSpeed env)).foldl env.ops.add s.pcmSpeed
        deltaSpeed := (files.map (env.getDecompressionPerformanceForLastFile .delta)).foldl
          env.ops.add s.deltaSpeed
        diffSpeed := (files.map (env.getDecompressionPerformanceForLastFile .diff)).foldl
          env.ops.add s.diffSpeed
        numFilesChecked := s.numFilesChecked + files.length } := by
  induction files generalizing s with
  | nil => simp
  | cons f rest ih =>
    rw [List.foldl_cons, ih]
    simp [fileStep, List.append_assoc, Nat.add_assoc, Nat.add_comm 1]

theorem main_eq_finalState {D : Type} (env : Env D) (tool folder : String)
    (h : ∀ f ∈ env.findChildFiles folder, skipped f = false → Succeeds env f) :
    main env 2 [tool, folder] = { exitCode := 0, state := finalState env folder } := by
  have hroot : ([tool, folder] : List String).getD 1 "" = folder := rfl
  simp only [main, ne_eq, not_true_eq_false, if_false, hroot,
    loop_complete_eq env _ _ h, foldl_fileStep]
  congr 1
  simp [summary, finalState, averages, summaryLines, total, State.emit, initialState,
    checkWithFlac, useBlock, useDelta, useDiff]

end HlacTool

namespace HlacTool

theorem logLines_append (xs ys : List Event) :
    logLines (xs ++ ys) = logLines xs ++ logLines ys := by
  simp [logLines, List.filterMap_append]

theorem logLines_flatMap {D : Type} (env : Env D) (files : List File) :
    logLines (files.flatMap (fileEvents env))
      = files.flatMap (fun f => logLines (fileEvents env f)) := by
  induction files with
  | nil => rfl
  | cons f rest ih => simp only [List.flatMap_cons, logLines_append, ih]

theorem logLines_map_writeToLog (lines : List String) :
    logLines (lines.map Event.writeToLog) = lines := by
  induction lines with
  | nil => rfl
  | cons l rest ih =>
    simp only [logLines] at ih
    simp [logLines, List.filterMap_cons, ih]

/-- C13: on a completed run (exactly one folder argument, every non-skipped file loads and
gets its writers) the log receives, for every checked file, its three header lines and then
one ratio line for FLAC, the block, the delta and the diff pass, and after the last file the
summary: a ratio line for FLAC, block, delta and diff, and a speed line for PCM, FLAC,
block, delta and diff.  Each summary value is the sum of the values of the checked files
divided by their number (`averages`), and these are the final values of the sums. -/
theorem summary_logs_averages {D : Type} (env : Env D) (tool folder : String)
    (h : ∀ f ∈ env.findChildFiles folder, skipped f = false → Succeeds env f) :
    main env 2 [tool, folder] = { exitCode := 0, state := finalState env folder } ∧
    (∀ f, logLines (fileEvents env f) =
      ["", "Compressing file " ++ f.fileName, rule '-' 68,
       "Compressing with FLAC:  " ++ env.ops.str (env.getFLACRatio f).1 3,
       "Compressing with blocks: "
         ++ env.ops.str (env.getCompressionRatioForLastFile .block f) 3,
       "Compressing with delta:  "
         ++ env.ops.str (env.getCompressionRatioForLastFile .delta f) 3,
       "Compressing with diff: "
         ++ env.ops.str (env.getCompressionRatioForLastFile .diff f) 3]) ∧
    logLines (main env 2 [tool, folder]).state.events =
      (checkedFiles (env.findChildFiles folder)).flatMap
          (fun f => logLines (fileEvents env f))
        ++ summaryLines env.ops (averages env (checkedFiles (env.findChildFiles folder))) ∧
    (main env 2 [tool, folder]).state.flacRatio =
      env.ops.divFloat
        (total env.ops ((checkedFiles (env.findChildFiles folder)).map
          (fun f => (env.getFLACRatio f).1)))
        (checkedFiles (env.findChildFiles folder)).length := by
  have hfile : ∀ f, logLines (fileEvents env f) =
      ["", "Compressing file " ++ f.fileName, rule '-' 68,
       "Compressing with FLAC:  " ++ env.ops.str (env.getFLACRatio f).1 3,
       "Compressing with blocks: "
         ++ env.ops.str (env.getCompressionRatioForLastFile .block f) 3,
       "Compressing with delta:  "
         ++ env.ops.str (env.getCompressionRatioForLastFile .delta f) 3,
       "Compressing with diff: "
         ++ env.ops.str (env.getCompressionRatioForLastFile .diff f) 3] := by
    intro f
    simp [logLines, fileEvents, fileHeader, passEvents, passCalls, roundTripEvents,
      passLabel, List.filterMap_cons, List.filterMap_append]
  refine ⟨main_eq_finalState env tool folder h, hfile, ?_, ?_⟩
  · rw [main_eq_finalState env tool folder h]
    simp only [finalState, logLines_append, logLines_flatMap, logLines_map_writeToLog]
    simp [logLines]
  · rw [main_eq_finalState env tool folder h]
    rfl

/-- Witness for C13: a run over two files to check and one to skip. -/
theorem summary_logs_averages_witness :
    (main (demoEnv [demoFile "a.wav", demoFile "_b.wav", demoFile "c.wav"] none none) 2
      ["hlac_tool", "/samples"]).state.flacRatio = 1 :=
  (summary_logs_averages
    (demoEnv [demoFile "a.wav", demoFile "_b.wav", demoFile "c.wav"] none none)
    "hlac_tool" "/samples"
    (fun g _ _ => demoEnv_succeeds _ _ _ g (by simp) (by simp))).2.2.2.trans (by decide)

theorem map_withoutCheckResult_fileEvents {D : Type} (env : Env D)
    (check : AudioSampleBuffer → AudioSampleBuffer → Bool) (f : File) :
    (fileEvents { env with checkBuffersEqual := check } f).map Event.withoutCheckResult
      = (fileEvents env f).map Event.withoutCheckResult := by
  have hb : loadedBuffer { env with checkBuffersEqual := check } f = loadedBuffer env f := rfl
  simp [fileEvents, fileHeader, passEvents, passCalls, roundTripEvents, hb,
    Event.withoutCheckResult]

theorem map_withoutCheckResult_flatMap {D : Type} (env : Env D)
    (check : AudioSampleBuffer → AudioSampleBuffer → Bool) (files : List File) :
    (files.flatMap (fileEvents { env with checkBuffersEqual := check })).map
        Event.withoutCheckResult
      = (files.flatMap (fileEvents env)).map Event.withoutCheckResult := by
  induction files with
  | nil => rfl
  | cons f rest ih =>
    simp only [List.flatMap_cons, List.map_append, ih,
      map_withoutCheckResult_fileEvents env check f]

/-- C17: take a run with one folder argument in which every non-skipped file loads and gets
its writers, and replace `checkBuffersEqual` by any other function.  Both runs return 0;
they end with the same sums, averages and `numFilesChecked`, and their traces differ at most
in what the `checkBuffersEqual` events record as found: the result is never read. -/
theorem exit_code_ignores_checkBuffersEqual {D : Type} (env : Env D)
    (check : AudioSampleBuffer → AudioSampleBuffer → Bool) (tool folder : String)
    (h : ∀ f ∈ env.findChildFiles folder, skipped f = false → Succeeds env f) :
    (main env 2 [tool, folder]).exitCode = 0 ∧
    (main { env with checkBuffersEqual := check } 2 [tool, folder]).exitCode = 0 ∧
    (main { env with checkBuffersEqual := check } 2 [tool, folder]).state.events.map
        Event.withoutCheckResult
      = (main env 2 [tool, folder]).state.events.map Event.withoutCheckResult ∧
    { (main { env with checkBuffersEqual := check } 2 [tool, folder]).state with
        events := [] }
      = { (main env 2 [tool, folder]).state with events := [] } := by
  have h1 := main_eq_finalState env tool folder h
  have h2 := main_eq_finalState { env with checkBuffersEqual := check } tool folder h
  rw [h1, h2]
  refine ⟨rfl, rfl, ?_, rfl⟩
  have havg : averages { env with checkBuffersEqual := check }
        (checkedFiles (env.findChildFiles folder))
      = averages env (checkedFiles (env.findChildFiles folder)) := rfl
  simp only [finalState, List.map_append, map_withoutCheckResult_flatMap, havg]

/-- Witness for C17: the equality check replaced by one that always fails. -/
theorem exit_code_ignores_checkBuffersEqual_witness :
    (main (demoEnv [demoFile "a.wav", demoFile "c.wav"] none none) 2
      ["hlac_tool", "/samples"]).exitCode = 0 ∧
    (main { demoEnv [demoFile "a.wav", demoFile "c.wav"] none none with
        checkBuffersEqual := fun _ _ => false } 2 ["hlac_tool", "/samples"]).exitCode = 0 :=
  ⟨(exit_code_ignores_checkBuffersEqual
      (demoEnv [demoFile "a.wav", demoFile "c.wav"] none none) (fun _ _ => false)
      "hlac_tool" "/samples"
      (fun g _ _ => demoEnv_succeeds _ _ _ g (by simp) (by simp))).1,
   (exit_code_ignores_checkBuffersEqual
      (demoEnv [demoFile "a.wav", demoFile "c.wav"] none none) (fun _ _ => false)
      "hlac_tool" "/samples"
      (fun g _ _ => demoEnv_succeeds _ _ _ g (by simp) (by simp))).2.1⟩

end HlacTool
